import Mathlib

/-!
Verification of the custom-column / workflow-status synchronization engine
(`src/features/custom-columns/api/route.ts`).

Strings are modelled as lists of Unicode code points (`JStr`); the ASCII
case mappings used by `toLowerCase`/`toUpperCase` are modelled explicitly.
The document store (Appwrite `databases`) is modelled as a `Store` holding
the four collections touched by the route, and every `databases.*` call is
one primitive operation in a state monad `DbM` that
  * threads the store,
  * records a trace event per issued operation, and
  * consults a fault oracle (`faults : Nat → Option DbError`) indexed by the
    operation counter, so that transport errors can be injected at any call
    site (`noFaults` is the fault-free oracle).
-/

/-- Strings as lists of Unicode code points. -/
abbrev JStr := List Nat

/-- ASCII lowercasing of one code point, as in JS `toLowerCase`. -/
def jsToLower (c : Nat) : Nat := if 65 ≤ c ∧ c ≤ 90 then c + 32 else c

/-- ASCII uppercasing of one code point, as in JS `toUpperCase`. -/
def jsToUpper (c : Nat) : Nat := if 97 ≤ c ∧ c ≤ 122 then c - 32 else c

/-- Code points matched by the regex class `[\s_-]`: JS whitespace (`\s`),
underscore (95) and hyphen (45). -/
def isSepChar (c : Nat) : Bool :=
  c == 9 || c == 10 || c == 11 || c == 12 || c == 13 || c == 32 ||
  c == 160 || c == 5760 || (8192 ≤ c && c ≤ 8202) || c == 8232 ||
  c == 8233 || c == 8239 || c == 8287 || c == 12288 || c == 65279 ||
  c == 95 || c == 45

/-- Scanner for `replace(/[\s_-]+/g, "_")`: the flag records whether the
previous code point belonged to a separator run (in which case further
separators are absorbed into the same replacement). -/
def collapseGo : Bool → JStr → JStr
  | _, [] => []
  | inRun, c :: cs =>
    if isSepChar c then
      if inRun then collapseGo true cs else 95 :: collapseGo true cs
    else c :: collapseGo false cs

/-- Model of `replace(/[\s_-]+/g, "_")`: each maximal run of separator code points
becomes a single underscore (code point 95). -/
def collapseSeps (l : JStr) : JStr := collapseGo false l

/-- Model of `name.toLowerCase().replace(/[\s_-]+/g, "_").toUpperCase()`. -/
def normalizedKey (name : JStr) : JStr :=
  (collapseSeps (name.map jsToLower)).map jsToUpper

/-- Characterization of collapsed output: every separator in it is an
underscore, and (when `prevSep` is true) it does not start with a separator,
with no two adjacent separators anywhere. -/
def collapsedFrom : Bool → JStr → Prop
  | _, [] => True
  | prevSep, c :: cs =>
    if isSepChar c then c = 95 ∧ prevSep = false ∧ collapsedFrom true cs
    else collapsedFrom false cs

/-- Default status icon `"Circle"`. -/
def strCircle : JStr := [67, 105, 114, 99, 108, 101]

/-- Default status color `"#6B7280"`. -/
def strDefaultColor : JStr := [35, 54, 66, 55, 50, 56, 48]

/-- Status type `"OPEN"`. -/
def strOPEN : JStr := [79, 80, 69, 78]

/-- Errors surfaced by the document store: a missing document, or any other
(transport/server) failure. -/
inductive DbError where
  | notFound
  | serverError
deriving DecidableEq

/-- A document of the custom-columns collection. -/
structure CustomColumn where
  id : Nat
  name : JStr
  workspaceId : Nat
  projectId : Option Nat := none
  workflowId : Option Nat := none
  icon : Option JStr := none
  color : Option JStr := none
  position : Int
deriving DecidableEq

/-- A document of the workflow-statuses collection. -/
structure WorkflowStatus where
  id : Nat
  workflowId : Nat
  name : JStr
  key : JStr
  icon : JStr
  color : JStr
  statusType : JStr
  description : Option JStr := none
  position : Int
  positionX : Int
  positionY : Int
  isInitial : Bool
  isFinal : Bool
deriving DecidableEq

/-- A document of the workflow-transitions collection (a directed edge). -/
structure WorkflowTransition where
  id : Nat
  workflowId : Nat
  fromStatusId : Nat
  toStatusId : Nat
deriving DecidableEq

/-- The slice of a project document read by the route. -/
structure Project where
  id : Nat
  workflowId : Option Nat := none
deriving DecidableEq

/-- The document store: the four collections touched by the route, plus the
counter backing `ID.unique()`. -/
structure Store where
  columns : List CustomColumn
  statuses : List WorkflowStatus
  transitions : List WorkflowTransition
  projects : List Project
  nextId : Nat
deriving DecidableEq

/-- One trace event per issued `databases.*` call. -/
inductive OpEvent where
  | getColumnOp (id : Nat)
  | listColumnsOp
  | createColumnOp
  | updateColumnOp (id : Nat)
  | deleteColumnOp (id : Nat)
  | getProjectOp (id : Nat)
  | listStatusesOp
  | createStatusOp
  | deleteStatusOp (id : Nat)
  | listTransitionsOp
  | deleteTransitionOp (id : Nat)
deriving DecidableEq

/-- Execution state: the store, the fault oracle, the operation counter and
the trace of issued operations. -/
structure DbState where
  store : Store
  faults : Nat → Option DbError
  opIdx : Nat
  trace : List OpEvent

/-- The request monad: state plus exceptions (a thrown error does not roll
back earlier writes, exactly as with `await` on a remote store). -/
def DbM (α : Type) : Type := DbState → Except DbError α × DbState

def DbM.pure (a : α) : DbM α := fun s => (Except.ok a, s)

def DbM.bind (x : DbM α) (f : α → DbM β) : DbM β := fun s =>
  match x s with
  | (Except.ok a, s1) => f a s1
  | (Except.error e, s1) => (Except.error e, s1)

instance : Monad DbM where
  pure := DbM.pure
  bind := DbM.bind

/-- JS `try { x } catch (e) { h e }`. -/
def dbTry (x : DbM α) (h : DbError → DbM α) : DbM α := fun s =>
  match x s with
  | (Except.ok a, s1) => (Except.ok a, s1)
  | (Except.error e, s1) => h e s1

/-- One `databases.*` call: consumes one fault-oracle slot, records a trace
event, then performs `f` on the store. -/
def dbOp (ev : OpEvent) (f : Store → Except DbError (α × Store)) : DbM α := fun s =>
  let s1 : DbState := { s with opIdx := s.opIdx + 1, trace := s.trace ++ [ev] }
  match s.faults s.opIdx with
  | some e => (Except.error e, s1)
  | none =>
    match f s.store with
    | Except.ok (a, st) => (Except.ok a, { s1 with store := st })
    | Except.error e => (Except.error e, s1)

/-- Model of `orderDesc("position"), limit(1)`: the first document of maximal
position (earlier documents win ties, as in a stable descending sort). -/
def pickMaxPos {α : Type} (pos : α → Int) (l : List α) : Option α :=
  l.foldl (fun acc x =>
    match acc with
    | none => some x
    | some y => if pos y < pos x then some x else some y) none

/-- The scope filter of the POST handler: `workspaceId` always, `projectId`
and `workflowId` only when supplied with the request. -/
def colScopeMatch (workspaceId : Nat) (projectId workflowId : Option Nat)
    (c : CustomColumn) : Bool :=
  c.workspaceId == workspaceId &&
  (match projectId with
   | some p => c.projectId == some p
   | none => true) &&
  (match workflowId with
   | some w => c.workflowId == some w
   | none => true)

/-- Filter `workflowId = W AND (name = N OR key = K)`. -/
def statusMatches (wfId : Nat) (name key : JStr) (s : WorkflowStatus) : Bool :=
  s.workflowId == wfId && (s.name == name || s.key == key)

/-- Filter `workflowId = W AND (fromStatusId = S OR toStatusId = S)`. -/
def transTouches (wfId sid : Nat) (t : WorkflowTransition) : Bool :=
  t.workflowId == wfId && (t.fromStatusId == sid || t.toStatusId == sid)

/-- Model of `databases.getDocument(CUSTOM_COLUMNS_ID, id)`. -/
def getColumnDoc (id : Nat) : DbM CustomColumn :=
  dbOp (.getColumnOp id) fun st =>
    match st.columns.find? (fun c => c.id == id) with
    | some c => .ok (c, st)
    | none => .error .notFound

/-- Model of `databases.listDocuments(CUSTOM_COLUMNS_ID, [scope, orderDesc(position), limit(1)])`. -/
def listColumnsTop (workspaceId : Nat) (projectId workflowId : Option Nat) :
    DbM (Option CustomColumn) :=
  dbOp .listColumnsOp fun st =>
    .ok (pickMaxPos (fun c => c.position)
      (st.columns.filter (colScopeMatch workspaceId projectId workflowId)), st)

/-- Model of `databases.createDocument(CUSTOM_COLUMNS_ID, ID.unique(), documentData)`. -/
def createColumnDoc (name : JStr) (workspaceId : Nat)
    (projectId workflowId : Option Nat) (icon color : Option JStr)
    (position : Int) : DbM CustomColumn :=
  dbOp .createColumnOp fun st =>
    let c : CustomColumn :=
      { id := st.nextId, name := name, workspaceId := workspaceId,
        projectId := projectId, workflowId := workflowId,
        icon := icon, color := color, position := position }
    .ok (c, { st with columns := st.columns ++ [c], nextId := st.nextId + 1 })

/-- Model of `databases.deleteDocument(CUSTOM_COLUMNS_ID, id)`. -/
def deleteColumnDoc (id : Nat) : DbM Unit :=
  dbOp (.deleteColumnOp id) fun st =>
    match st.columns.find? (fun c => c.id == id) with
    | some _ => .ok ((), { st with columns := st.columns.filter (fun c => !(c.id == id)) })
    | none => .error .notFound

/-- Model of `databases.getDocument(PROJECTS_ID, id)`. -/
def getProjectDoc (id : Nat) : DbM Project :=
  dbOp (.getProjectOp id) fun st =>
    match st.projects.find? (fun p => p.id == id) with
    | some p => .ok (p, st)
    | none => .error .notFound

/-- Model of `databases.listDocuments(WORKFLOW_STATUSES_ID, [equal(workflowId), or(equal(name), equal(key))])`. -/
def listStatusesMatching (wfId : Nat) (name key : JStr) : DbM (List WorkflowStatus) :=
  dbOp .listStatusesOp fun st =>
    .ok (st.statuses.filter (statusMatches wfId name key), st)

/-- Model of `databases.listDocuments(WORKFLOW_STATUSES_ID, [equal(workflowId), orderDesc(position), limit(1)])`. -/
def listStatusesTop (wfId : Nat) : DbM (Option WorkflowStatus) :=
  dbOp .listStatusesOp fun st =>
    .ok (pickMaxPos (fun x => x.position)
      (st.statuses.filter (fun x => x.workflowId == wfId)), st)

/-- Model of `databases.createDocument(WORKFLOW_STATUSES_ID, ID.unique(), ...)`. -/
def createStatusDoc (wfId : Nat) (name key icon color : JStr) (position : Int) :
    DbM WorkflowStatus :=
  dbOp .createStatusOp fun st =>
    let x : WorkflowStatus :=
      { id := st.nextId, workflowId := wfId, name := name, key := key,
        icon := icon, color := color, statusType := strOPEN,
        description := none, position := position,
        positionX := 100 + position * 180, positionY := 100,
        isInitial := false, isFinal := false }
    .ok (x, { st with statuses := st.statuses ++ [x], nextId := st.nextId + 1 })

/-- Model of `databases.listDocuments(WORKFLOW_TRANSITIONS_ID, [equal(workflowId), or(equal(fromStatusId), equal(toStatusId))])`. -/
def listTransTouching (wfId sid : Nat) : DbM (List WorkflowTransition) :=
  dbOp .listTransitionsOp fun st =>
    .ok (st.transitions.filter (transTouches wfId sid), st)

/-- Model of `databases.deleteDocument(WORKFLOW_TRANSITIONS_ID, id)`. -/
def deleteTransitionDoc (id : Nat) : DbM Unit :=
  dbOp (.deleteTransitionOp id) fun st =>
    match st.transitions.find? (fun t => t.id == id) with
    | some _ => .ok ((), { st with transitions := st.transitions.filter (fun t => !(t.id == id)) })
    | none => .error .notFound

/-- Model of `databases.deleteDocument(WORKFLOW_STATUSES_ID, id)`. -/
def deleteStatusDoc (id : Nat) : DbM Unit :=
  dbOp (.deleteStatusOp id) fun st =>
    match st.statuses.find? (fun x => x.id == id) with
    | some _ => .ok ((), { st with statuses := st.statuses.filter (fun x => !(x.id == id)) })
    | none => .error .notFound

/-- Body of the POST request, as validated by `createCustomColumnSchema`. -/
structure CreateColumnInput where
  name : JStr
  workspaceId : Nat
  projectId : Option Nat := none
  workflowId : Option Nat := none
  icon : Option JStr := none
  color : Option JStr := none
  position : Option Int := none

/-- JS `v || d` for an optional string: the default is taken when the value
is absent or falsy (the empty string). -/
def jsOrDefault (v : Option JStr) (d : JStr) : JStr :=
  match v with
  | some s => if s.isEmpty then d else s
  | none => d

/-- The auto-sync block of the POST handler (route.ts lines 109–168): look
up the project; when it is linked to a workflow and the workflow has no
status with the column's name or normalized key, create a status at the
next dense position. -/
def syncColumnToWorkflow (projectId : Nat) (name : JStr)
    (icon color : Option JStr) : DbM Unit := do
  let project ← getProjectDoc projectId
  match project.workflowId with
  | none => pure ()
  | some wfId =>
    let key := normalizedKey name
    let existing ← listStatusesMatching wfId name key
    if existing.length == 0 then do
      let top ← listStatusesTop wfId
      let statusPosition : Int :=
        match top with
        | some x => x.position + 1
        | none => 0
      let _ ← createStatusDoc wfId name key (jsOrDefault icon strCircle)
        (jsOrDefault color strDefaultColor) statusPosition
      pure ()
    else
      pure ()

/-- The POST handler (route.ts lines 49–176). -/
def postColumn (input : CreateColumnInput) : DbM CustomColumn := do
  let finalPosition ←
    match input.position with
    | some p => DbM.pure p
    | none => do
      let top ← listColumnsTop input.workspaceId input.projectId input.workflowId
      pure (match top with
        | some c => c.position + 1000
        | none => (1000 : Int))
  let customColumn ← createColumnDoc input.name input.workspaceId
    input.projectId input.workflowId input.icon input.color finalPosition
  match input.projectId, input.workflowId with
  | some pid, none =>
    dbTry (syncColumnToWorkflow pid input.name input.icon input.color) (fun _ => DbM.pure ())
  | _, _ => DbM.pure ()
  pure customColumn

/-- Modelled from the spec: the PATCH body schema `updateCustomColumnSchema`
lives in `src/features/custom-columns/schemas`, which is not among the
sources; per §6 a patch is a partial update of the column's attributes
(name, icon, color, position). -/
structure UpdateColumnInput where
  name : Option JStr := none
  icon : Option JStr := none
  color : Option JStr := none
  position : Option Int := none

/-- Apply a partial update to a column document. -/
def applyColumnUpdate (u : UpdateColumnInput) (c : CustomColumn) : CustomColumn :=
  { c with
    name := u.name.getD c.name,
    icon := match u.icon with | some i => some i | none => c.icon,
    color := match u.color with | some k => some k | none => c.color,
    position := u.position.getD c.position }

/-- Model of `databases.updateDocument(CUSTOM_COLUMNS_ID, id, updates)`. -/
def updateColumnDoc (id : Nat) (u : UpdateColumnInput) : DbM CustomColumn :=
  dbOp (.updateColumnOp id) fun st =>
    match st.columns.find? (fun c => c.id == id) with
    | some c =>
      .ok (applyColumnUpdate u c,
        { st with columns := st.columns.map (fun x => if x.id == id then applyColumnUpdate u x else x) })
    | none => .error .notFound

/-- The PATCH handler (route.ts lines 178–196): a single document update. -/
def patchColumn (id : Nat) (u : UpdateColumnInput) : DbM CustomColumn :=
  updateColumnDoc id u

/-- The per-transition loop of the deletion cascade (route.ts lines 265–275). -/
def cascadeTransitionsDelete : List WorkflowTransition → DbM Unit
  | [] => DbM.pure ()
  | t :: rest => do
    dbTry (deleteTransitionDoc t.id) (fun _ => DbM.pure ())
    cascadeTransitionsDelete rest

/-- The per-status loop of the deletion cascade (route.ts lines 251–287):
list the transitions touching the status, delete them one by one (errors
swallowed per item), then delete the status (errors swallowed). -/
def cascadeStatusesDelete (wfId : Nat) : List WorkflowStatus → DbM Unit
  | [] => DbM.pure ()
  | status :: rest => do
    let rel ← listTransTouching wfId status.id
    cascadeTransitionsDelete rel
    dbTry (deleteStatusDoc status.id) (fun _ => DbM.pure ())
    cascadeStatusesDelete wfId rest

/-- The auto-sync block of the DELETE handler (route.ts lines 227–292). -/
def cleanupWorkflowStatus (columnName : JStr) (columnProjectId : Nat) : DbM Unit := do
  let project ← getProjectDoc columnProjectId
  match project.workflowId with
  | none => pure ()
  | some wfId =>
    let key := normalizedKey columnName
    let matching ← listStatusesMatching wfId columnName key
    cascadeStatusesDelete wfId matching

/-- The DELETE handler (route.ts lines 197–296): pre-read the column (errors
swallowed), delete it (errors surface), then — when both a non-empty name
and a projectId were captured — run the cleanup with all errors swallowed. -/
def deleteColumn (customColumnId : Nat) : DbM Nat := do
  let colInfo ←
    dbTry
      (do
        let customColumn ← getColumnDoc customColumnId
        pure (some (customColumn.name, customColumn.projectId)))
      (fun _ => DbM.pure none)
  deleteColumnDoc customColumnId
  match colInfo with
  | some (columnName, some columnProjectId) =>
    if columnName.isEmpty then DbM.pure ()
    else dbTry (cleanupWorkflowStatus columnName columnProjectId) (fun _ => DbM.pure ())
  | _ => DbM.pure ()
  pure customColumnId

/-- The fault-free oracle: every store call reaches the store. -/
def noFaults : Nat → Option DbError := fun _ => none

/-- A fault oracle failing exactly the `k`-th store call with error `e`. -/
def faultAt (k : Nat) (e : DbError) : Nat → Option DbError :=
  fun i => if i == k then some e else none

/-- Initial execution state for one request. -/
def initState (st : Store) (faults : Nat → Option DbError) : DbState :=
  { store := st, faults := faults, opIdx := 0, trace := [] }

def runPost (input : CreateColumnInput) (st : Store) (faults : Nat → Option DbError) :
    Except DbError CustomColumn × DbState :=
  postColumn input (initState st faults)

def runPatch (id : Nat) (u : UpdateColumnInput) (st : Store) (faults : Nat → Option DbError) :
    Except DbError CustomColumn × DbState :=
  patchColumn id u (initState st faults)

def runDelete (id : Nat) (st : Store) (faults : Nat → Option DbError) :
    Except DbError Nat × DbState :=
  deleteColumn id (initState st faults)

/-- The column position computed by the POST handler when the request
carries no explicit position (route.ts lines 67–82). -/
def columnPosAlloc (workspaceId : Nat) (projectId workflowId : Option Nat)
    (columns : List CustomColumn) : Int :=
  match pickMaxPos (fun c => c.position)
      (columns.filter (colScopeMatch workspaceId projectId workflowId)) with
  | some c => c.position + 1000
  | none => 1000

/-- The status position computed by the sync block (route.ts lines 134–145). -/
def statusPosAlloc (wfId : Nat) (statuses : List WorkflowStatus) : Int :=
  match pickMaxPos (fun x => x.position)
      (statuses.filter (fun x => x.workflowId == wfId)) with
  | some x => x.position + 1
  | none => 0

/-- A concrete column document exercising the theorems on explicit inputs. -/
def wCol : CustomColumn :=
  { id := 50, name := [65], workspaceId := 5, projectId := some 1, position := 0 }

/-- A concrete workflow status whose name equals `wCol`'s name. -/
def wStatusA : WorkflowStatus :=
  { id := 20, workflowId := 7, name := [65], key := [65], icon := [], color := [],
    statusType := [], position := 0, positionX := 0, positionY := 0,
    isInitial := false, isFinal := false }

/-- A concrete transition incident to `wStatusA`. -/
def wTrans : WorkflowTransition :=
  { id := 30, workflowId := 7, fromStatusId := 20, toStatusId := 20 }

/-- A concrete project linked to workflow 7. -/
def wProject : Project := { id := 1, workflowId := some 7 }

/-- A concrete store tying the above documents together. -/
def wStore : Store :=
  { columns := [wCol], statuses := [wStatusA], transitions := [wTrans],
    projects := [wProject], nextId := 100 }

/-- A concrete POST body: project column, no explicit position. -/
def wInput : CreateColumnInput :=
  { name := [65], workspaceId := 5, projectId := some 1 }

/-- A concrete POST body with both `projectId` and `workflowId` set. -/
def wInputBoth : CreateColumnInput :=
  { name := [65], workspaceId := 5, projectId := some 1, workflowId := some 7 }

/-- Variant of `wStore` without any workflow status (the workflow is empty). -/
def wStoreNoStatus : Store :=
  { columns := [wCol], statuses := [], transitions := [wTrans],
    projects := [wProject], nextId := 100 }

/-- A concrete column with both `projectId` and `workflowId` set. -/
def wColBoth : CustomColumn :=
  { id := 51, name := [65], workspaceId := 5, projectId := some 1,
    workflowId := some 9, position := 0 }

/-- Variant of `wStore` with `wColBoth` as its only column. -/
def wStoreBoth : Store :=
  { columns := [wColBoth], statuses := [wStatusA], transitions := [wTrans],
    projects := [wProject], nextId := 100 }

/-- Is transition `t` incident to status id `sid` (either endpoint)? -/
def transIncidentTo (t : WorkflowTransition) (sid : Nat) : Bool :=
  t.fromStatusId == sid || t.toStatusId == sid

/-- An ordered event pair is acceptable unless a status deletion (earlier)
is followed by the deletion of a transition (later) that is incident to the
deleted status according to the transition table `T0`. -/
def pairOk (T0 : List WorkflowTransition) (e e2 : OpEvent) : Bool :=
  match e, e2 with
  | .deleteStatusOp sid, .deleteTransitionOp tid =>
    T0.all (fun t => !(t.id == tid) || !(transIncidentTo t sid))
  | _, _ => true

/-- No status deletion in the trace precedes the deletion of one of its
incident transitions. -/
def transBeforeStatus (T0 : List WorkflowTransition) : List OpEvent → Bool
  | [] => true
  | e :: rest => rest.all (pairOk T0 e) && transBeforeStatus T0 rest

theorem collapseGo_collapsedFrom :
    ∀ l : JStr, collapsedFrom false (collapseGo false l) ∧ collapsedFrom true (collapseGo true l) := by
  intro l
  induction l with
  | nil => exact ⟨trivial, trivial⟩
  | cons c cs ih =>
    by_cases hc : isSepChar c
    · constructor
      · show collapsedFrom false (collapseGo false (c :: cs))
        simp only [collapseGo, hc, if_true, Bool.false_eq_true, if_false]
        show collapsedFrom false (95 :: collapseGo true cs)
        simp only [collapsedFrom, show isSepChar 95 = true by decide, if_true]
        exact ⟨by trivial, by trivial, ih.2⟩
      · show collapsedFrom true (collapseGo true (c :: cs))
        simp only [collapseGo, hc, if_true]
        exact ih.2
    · have : collapsedFrom true (c :: collapseGo false cs) ∧
          collapsedFrom false (c :: collapseGo false cs) := by
        constructor <;>
          · simp only [collapsedFrom, hc, Bool.false_eq_true, if_false]
            exact ih.1
      constructor
      · show collapsedFrom false (collapseGo false (c :: cs))
        simp only [collapseGo, hc, Bool.false_eq_true, if_false]
        exact this.2
      · show collapsedFrom true (collapseGo true (c :: cs))
        simp only [collapseGo, hc, Bool.false_eq_true, if_false]
        exact this.1

theorem collapseGo_of_collapsedFrom :
    ∀ l : JStr, (collapsedFrom false l → collapseGo false l = l) ∧
      (collapsedFrom true l → collapseGo true l = l) := by
  intro l
  induction l with
  | nil => exact ⟨fun _ => rfl, fun _ => rfl⟩
  | cons c cs ih =>
    by_cases hc : isSepChar c
    · constructor
      · intro h
        simp only [collapsedFrom, hc, if_true] at h
        obtain ⟨h95, _, hrest⟩ := h
        simp only [collapseGo, hc, if_true, Bool.false_eq_true, if_false]
        rw [ih.2 hrest, h95]
      · intro h
        simp only [collapsedFrom, hc, if_true] at h
        simp at h
    · constructor <;>
        · intro h
          simp only [collapsedFrom, hc, Bool.false_eq_true, if_false] at h
          simp only [collapseGo, hc, Bool.false_eq_true, if_false]
          rw [ih.1 h]

theorem collapseSeps_idem (l : JStr) : collapseSeps (collapseSeps l) = collapseSeps l :=
  (collapseGo_of_collapsedFrom (collapseGo false l)).1 (collapseGo_collapsedFrom l).1

theorem collapseGo_mem (c : Nat) :
    ∀ (b : Bool) (l : JStr), c ∈ collapseGo b l → c = 95 ∨ c ∈ l := by
  intro b l
  induction l generalizing b with
  | nil => simp [collapseGo]
  | cons a as ih =>
    by_cases ha : isSepChar a
    · cases b with
      | true =>
        simp only [collapseGo, ha, if_true]
        intro h
        rcases ih true h with h' | h'
        · exact Or.inl h'
        · exact Or.inr (List.mem_cons_of_mem a h')
      | false =>
        simp only [collapseGo, ha, if_true, Bool.false_eq_true, if_false]
        intro h
        rcases List.mem_cons.mp h with h' | h'
        · exact Or.inl h'
        · rcases ih true h' with h'' | h''
          · exact Or.inl h''
          · exact Or.inr (List.mem_cons_of_mem a h'')
    · simp only [collapseGo, ha, Bool.false_eq_true, if_false]
      intro h
      rcases List.mem_cons.mp h with h' | h'
      · exact Or.inr (h' ▸ List.mem_cons_self a as)
      · rcases ih false h' with h'' | h''
        · exact Or.inl h''
        · exact Or.inr (List.mem_cons_of_mem a h'')

theorem jsToLower_not_upper (c : Nat) : ¬ (65 ≤ jsToLower c ∧ jsToLower c ≤ 90) := by
  unfold jsToLower
  split <;> omega

theorem jsToLower_jsToUpper_of_not_upper (c : Nat)
    (h : ¬ (65 ≤ c ∧ c ≤ 90)) : jsToLower (jsToUpper c) = c := by
  unfold jsToUpper
  by_cases hc : 97 ≤ c ∧ c ≤ 122
  · rw [if_pos hc]
    unfold jsToLower
    rw [if_pos (by omega)]
    omega
  · rw [if_neg hc]
    unfold jsToLower
    rw [if_neg h]

theorem map_lower_upper_cancel (l : JStr)
    (h : ∀ c ∈ l, ¬ (65 ≤ c ∧ c ≤ 90)) :
    (l.map jsToUpper).map jsToLower = l := by
  rw [List.map_map]
  have : ∀ c ∈ l, (jsToLower ∘ jsToUpper) c = id c := by
    intro c hc
    exact jsToLower_jsToUpper_of_not_upper c (h c hc)
  rw [List.map_congr_left this, List.map_id]

theorem normalizedKey_collapse_fixed (name : JStr) :
    (normalizedKey name).map jsToLower = collapseSeps (name.map jsToLower) := by
  unfold normalizedKey
  apply map_lower_upper_cancel
  intro c hc
  rcases collapseGo_mem c false (name.map jsToLower) hc with h | h
  · subst h
    decide
  · obtain ⟨a, _, rfl⟩ := List.mem_map.mp h
    exact jsToLower_not_upper a

theorem run_bind (x : DbM α) (f : α → DbM β) (s : DbState) :
    (x >>= f) s =
      match x s with
      | (Except.ok a, s1) => f a s1
      | (Except.error e, s1) => (Except.error e, s1) := rfl

theorem run_pure (a : α) (s : DbState) : (pure a : DbM α) s = (Except.ok a, s) := rfl

theorem run_DbM_pure (a : α) (s : DbState) : (DbM.pure a) s = (Except.ok a, s) := rfl

theorem run_dbTry (x : DbM α) (h : DbError → DbM α) (s : DbState) :
    dbTry x h s =
      match x s with
      | (Except.ok a, s1) => (Except.ok a, s1)
      | (Except.error e, s1) => h e s1 := rfl

theorem pickMaxPos_go_some {α : Type} (pos : α → Int) (l : List α) (a : α) :
    ∃ b, l.foldl (fun acc x =>
        match acc with
        | none => some x
        | some y => if pos y < pos x then some x else some y) (some a) = some b ∧
      (b = a ∨ b ∈ l) ∧ pos a ≤ pos b ∧ ∀ x ∈ l, pos x ≤ pos b := by
  induction l generalizing a with
  | nil => exact ⟨a, rfl, Or.inl rfl, le_refl _, by simp⟩
  | cons c cs ih =>
    by_cases hc : pos a < pos c
    · obtain ⟨b, hb, hmem, hle, hall⟩ := ih c
      refine ⟨b, ?_, ?_, ?_, ?_⟩
      · simpa [hc] using hb
      · rcases hmem with h | h
        · exact Or.inr (h ▸ List.mem_cons_self c cs)
        · exact Or.inr (List.mem_cons_of_mem c h)
      · exact le_of_lt (lt_of_lt_of_le hc hle)
      · intro x hx
        rcases List.mem_cons.mp hx with h | h
        · exact h ▸ hle
        · exact hall x h
    · obtain ⟨b, hb, hmem, hle, hall⟩ := ih a
      refine ⟨b, ?_, ?_, ?_, ?_⟩
      · simpa [hc] using hb
      · rcases hmem with h | h
        · exact Or.inl h
        · exact Or.inr (List.mem_cons_of_mem c h)
      · exact hle
      · intro x hx
        rcases List.mem_cons.mp hx with h | h
        · subst h
          exact le_trans (le_of_not_lt hc) hle
        · exact hall x h

theorem pickMaxPos_nil {α : Type} (pos : α → Int) : pickMaxPos pos [] = none := rfl

theorem pickMaxPos_cons_spec {α : Type} (pos : α → Int) (c : α) (cs : List α) :
    ∃ b, pickMaxPos pos (c :: cs) = some b ∧ b ∈ c :: cs ∧
      ∀ x ∈ c :: cs, pos x ≤ pos b := by
  obtain ⟨b, hb, hmem, hle, hall⟩ := pickMaxPos_go_some pos cs c
  refine ⟨b, hb, ?_, ?_⟩
  · rcases hmem with h | h
    · exact h ▸ List.mem_cons_self c cs
    · exact List.mem_cons_of_mem c h
  · intro x hx
    rcases List.mem_cons.mp hx with h | h
    · exact h ▸ hle
    · exact hall x h

theorem columnPosAlloc_spec (workspaceId : Nat) (projectId workflowId : Option Nat)
    (columns : List CustomColumn) :
    (columns.filter (colScopeMatch workspaceId projectId workflowId) = [] ∧
      columnPosAlloc workspaceId projectId workflowId columns = 1000) ∨
    (∃ y ∈ columns.filter (colScopeMatch workspaceId projectId workflowId),
      columnPosAlloc workspaceId projectId workflowId columns = y.position + 1000 ∧
      ∀ x ∈ columns.filter (colScopeMatch workspaceId projectId workflowId),
        x.position ≤ y.position) := by
  unfold columnPosAlloc
  cases hl : columns.filter (colScopeMatch workspaceId projectId workflowId) with
  | nil => exact Or.inl ⟨rfl, by rw [pickMaxPos_nil]⟩
  | cons c cs =>
    obtain ⟨b, hb, hmem, hall⟩ := pickMaxPos_cons_spec (fun c => c.position) c cs
    right
    exact ⟨b, hmem, by rw [hb], hall⟩

theorem statusPosAlloc_spec (wfId : Nat) (statuses : List WorkflowStatus) :
    (statuses.filter (fun x => x.workflowId == wfId) = [] ∧
      statusPosAlloc wfId statuses = 0) ∨
    (∃ y ∈ statuses.filter (fun x => x.workflowId == wfId),
      statusPosAlloc wfId statuses = y.position + 1 ∧
      ∀ x ∈ statuses.filter (fun x => x.workflowId == wfId),
        x.position ≤ y.position) := by
  unfold statusPosAlloc
  cases hl : statuses.filter (fun x => x.workflowId == wfId) with
  | nil => exact Or.inl ⟨rfl, by rw [pickMaxPos_nil]⟩
  | cons c cs =>
    obtain ⟨b, hb, hmem, hall⟩ := pickMaxPos_cons_spec (fun x => x.position) c cs
    right
    exact ⟨b, hmem, by rw [hb], hall⟩

theorem dbTry_catchAll_fst (x : DbM Unit) (s : DbState) :
    (dbTry x (fun _ => DbM.pure ()) s).1 = Except.ok () := by
  unfold dbTry
  rcases hx : x s with ⟨r, s1⟩
  cases r <;> rfl

theorem StoreField_bind {γ : Type} (g : Store → γ) (x : DbM α) (f : α → DbM β)
    (hx : ∀ s, g ((x s).2).store = g s.store)
    (hf : ∀ a s, g (((f a) s).2).store = g s.store) :
    ∀ s, g (((x >>= f) s).2).store = g s.store := by
  intro s
  rw [run_bind]
  rcases hx2 : x s with ⟨r, s1⟩
  have h1 : g s1.store = g s.store := by
    have := hx s
    rw [hx2] at this
    exact this
  cases r with
  | ok a =>
    simp only []
    rw [hf a s1, h1]
  | error e =>
    exact h1

theorem StoreField_dbTry {γ : Type} (g : Store → γ) (x : DbM α) (h : DbError → DbM α)
    (hx : ∀ s, g ((x s).2).store = g s.store)
    (hh : ∀ e s, g (((h e) s).2).store = g s.store) :
    ∀ s, g ((dbTry x h s).2).store = g s.store := by
  intro s
  unfold dbTry
  rcases hx2 : x s with ⟨r, s1⟩
  have h1 : g s1.store = g s.store := by
    have := hx s
    rw [hx2] at this
    exact this
  cases r with
  | ok a => exact h1
  | error e =>
    simp only []
    rw [hh e s1, h1]

theorem StoreField_pure {γ : Type} (g : Store → γ) (a : α) :
    ∀ s : DbState, g (((DbM.pure a) s).2).store = g s.store := fun _ => rfl

/-- Frame fact: the project read never changes the column collection (one
such lemma follows for each primitive touching only the other collections). -/
theorem columns_getProjectDoc (id : Nat) :
    ∀ s, ((getProjectDoc id s).2).store.columns = s.store.columns := by
  intro s
  cases hflt : s.faults s.opIdx with
  | none => cases hf : s.store.projects.find? (fun p => p.id == id) <;>
      simp [getProjectDoc, dbOp, hflt, hf]
  | some e => simp [getProjectDoc, dbOp, hflt]

theorem columns_listStatusesMatching (wfId : Nat) (name key : JStr) :
    ∀ s, ((listStatusesMatching wfId name key s).2).store.columns = s.store.columns := by
  intro s
  cases hflt : s.faults s.opIdx <;> simp [listStatusesMatching, dbOp, hflt]

theorem columns_listStatusesTop (wfId : Nat) :
    ∀ s, ((listStatusesTop wfId s).2).store.columns = s.store.columns := by
  intro s
  cases hflt : s.faults s.opIdx <;> simp [listStatusesTop, dbOp, hflt]

theorem columns_createStatusDoc (wfId : Nat) (name key icon color : JStr) (p : Int) :
    ∀ s, ((createStatusDoc wfId name key icon color p s).2).store.columns = s.store.columns := by
  intro s
  cases hflt : s.faults s.opIdx <;> simp [createStatusDoc, dbOp, hflt]

theorem columns_listTransTouching (wfId sid : Nat) :
    ∀ s, ((listTransTouching wfId sid s).2).store.columns = s.store.columns := by
  intro s
  cases hflt : s.faults s.opIdx <;> simp [listTransTouching, dbOp, hflt]

theorem columns_deleteTransitionDoc (id : Nat) :
    ∀ s, ((deleteTransitionDoc id s).2).store.columns = s.store.columns := by
  intro s
  cases hflt : s.faults s.opIdx with
  | none => cases hf : s.store.transitions.find? (fun t => t.id == id) <;>
      simp [deleteTransitionDoc, dbOp, hflt, hf]
  | some e => simp [deleteTransitionDoc, dbOp, hflt]

theorem columns_deleteStatusDoc (id : Nat) :
    ∀ s, ((deleteStatusDoc id s).2).store.columns = s.store.columns := by
  intro s
  cases hflt : s.faults s.opIdx with
  | none => cases hf : s.store.statuses.find? (fun x => x.id == id) <;>
      simp [deleteStatusDoc, dbOp, hflt, hf]
  | some e => simp [deleteStatusDoc, dbOp, hflt]

theorem columnsStable_bind {x : DbM α} {f : α → DbM β}
    (hx : ∀ s, ((x s).2).store.columns = s.store.columns)
    (hf : ∀ a s, (((f a) s).2).store.columns = s.store.columns) :
    ∀ s, (((x >>= f) s).2).store.columns = s.store.columns :=
  StoreField_bind (fun st => st.columns) x f hx hf

theorem columnsStable_dbTry {x : DbM α} {h : DbError → DbM α}
    (hx : ∀ s, ((x s).2).store.columns = s.store.columns)
    (hh : ∀ e s, (((h e) s).2).store.columns = s.store.columns) :
    ∀ s, ((dbTry x h s).2).store.columns = s.store.columns :=
  StoreField_dbTry (fun st => st.columns) x h hx hh

theorem columns_syncColumnToWorkflow (pid : Nat) (name : JStr) (icon color : Option JStr) :
    ∀ s, ((syncColumnToWorkflow pid name icon color s).2).store.columns = s.store.columns := by
  unfold syncColumnToWorkflow
  apply columnsStable_bind (columns_getProjectDoc pid)
  intro proj
  cases proj.workflowId with
  | none => exact StoreField_pure (fun st => st.columns) ()
  | some wfId =>
    simp only []
    apply columnsStable_bind (columns_listStatusesMatching wfId name (normalizedKey name))
    intro existing
    by_cases hlen : (existing.length == 0) = true
    · simp only [hlen, if_true]
      apply columnsStable_bind (columns_listStatusesTop wfId)
      intro top
      apply columnsStable_bind (columns_createStatusDoc wfId name (normalizedKey name)
        (jsOrDefault icon strCircle) (jsOrDefault color strDefaultColor)
        (match top with | some x => x.position + 1 | none => 0))
      intro x
      exact StoreField_pure (fun st => st.columns) ()
    · simp only [hlen, if_false]
      exact StoreField_pure (fun st => st.columns) ()

theorem columns_cascadeTransitionsDelete (ts : List WorkflowTransition) :
    ∀ s, ((cascadeTransitionsDelete ts s).2).store.columns = s.store.columns := by
  induction ts with
  | nil => exact StoreField_pure (fun st => st.columns) ()
  | cons t rest ih =>
    unfold cascadeTransitionsDelete
    apply columnsStable_bind
    · exact columnsStable_dbTry (columns_deleteTransitionDoc t.id)
        (fun e => StoreField_pure (fun st => st.columns) ())
    · intro _
      exact ih

theorem columns_cascadeStatusesDelete (wfId : Nat) (ms : List WorkflowStatus) :
    ∀ s, ((cascadeStatusesDelete wfId ms s).2).store.columns = s.store.columns := by
  induction ms with
  | nil => exact StoreField_pure (fun st => st.columns) ()
  | cons m rest ih =>
    unfold cascadeStatusesDelete
    apply columnsStable_bind (columns_listTransTouching wfId m.id)
    intro rel
    apply columnsStable_bind (columns_cascadeTransitionsDelete rel)
    intro _
    apply columnsStable_bind
    · exact columnsStable_dbTry (columns_deleteStatusDoc m.id)
        (fun e => StoreField_pure (fun st => st.columns) ())
    · intro _
      exact ih

theorem columns_cleanupWorkflowStatus (name : JStr) (pid : Nat) :
    ∀ s, ((cleanupWorkflowStatus name pid s).2).store.columns = s.store.columns := by
  unfold cleanupWorkflowStatus
  apply columnsStable_bind (columns_getProjectDoc pid)
  intro proj
  cases proj.workflowId with
  | none => exact StoreField_pure (fun st => st.columns) ()
  | some wfId =>
    simp only []
    apply columnsStable_bind (columns_listStatusesMatching wfId name (normalizedKey name))
    intro matching
    exact columns_cascadeStatusesDelete wfId matching

theorem step_deleteTransition (tid : Nat) (s : DbState) (hf : s.faults = noFaults) :
    dbTry (deleteTransitionDoc tid) (fun _ => DbM.pure ()) s =
      (Except.ok (), { s with
        store := { s.store with
          transitions := s.store.transitions.filter (fun t => !(t.id == tid)) },
        opIdx := s.opIdx + 1,
        trace := s.trace ++ [OpEvent.deleteTransitionOp tid] }) := by
  cases hfind : s.store.transitions.find? (fun t => t.id == tid) with
  | some t =>
    simp [dbTry, deleteTransitionDoc, dbOp, hf, noFaults, hfind]
  | none =>
    have hall : ∀ t ∈ s.store.transitions, (!(t.id == tid)) = true := by
      intro t ht
      have := List.find?_eq_none.mp hfind t ht
      simpa using this
    have hid : s.store.transitions.filter (fun t => !(t.id == tid)) = s.store.transitions :=
      List.filter_eq_self.mpr hall
    simp [dbTry, deleteTransitionDoc, dbOp, hf, noFaults, hfind, DbM.pure, hid]

theorem step_deleteStatus (sid : Nat) (s : DbState) (hf : s.faults = noFaults) :
    dbTry (deleteStatusDoc sid) (fun _ => DbM.pure ()) s =
      (Except.ok (), { s with
        store := { s.store with
          statuses := s.store.statuses.filter (fun x => !(x.id == sid)) },
        opIdx := s.opIdx + 1,
        trace := s.trace ++ [OpEvent.deleteStatusOp sid] }) := by
  cases hfind : s.store.statuses.find? (fun x => x.id == sid) with
  | some x =>
    simp [dbTry, deleteStatusDoc, dbOp, hf, noFaults, hfind]
  | none =>
    have hall : ∀ x ∈ s.store.statuses, (!(x.id == sid)) = true := by
      intro x hx
      have := List.find?_eq_none.mp hfind x hx
      simpa using this
    have hid : s.store.statuses.filter (fun x => !(x.id == sid)) = s.store.statuses :=
      List.filter_eq_self.mpr hall
    simp [dbTry, deleteStatusDoc, dbOp, hf, noFaults, hfind, DbM.pure, hid]

theorem step_listTransTouching (wfId sid : Nat) (s : DbState) (hf : s.faults = noFaults) :
    listTransTouching wfId sid s =
      (Except.ok (s.store.transitions.filter (transTouches wfId sid)), { s with
        opIdx := s.opIdx + 1,
        trace := s.trace ++ [OpEvent.listTransitionsOp] }) := by
  simp [listTransTouching, dbOp, hf, noFaults]

theorem step_listStatusesMatching (wfId : Nat) (name key : JStr) (s : DbState)
    (hf : s.faults = noFaults) :
    listStatusesMatching wfId name key s =
      (Except.ok (s.store.statuses.filter (statusMatches wfId name key)), { s with
        opIdx := s.opIdx + 1,
        trace := s.trace ++ [OpEvent.listStatusesOp] }) := by
  simp [listStatusesMatching, dbOp, hf, noFaults]

theorem step_getProject (pid : Nat) (proj : Project) (s : DbState)
    (hf : s.faults = noFaults)
    (hfind : s.store.projects.find? (fun p => p.id == pid) = some proj) :
    getProjectDoc pid s =
      (Except.ok proj, { s with
        opIdx := s.opIdx + 1,
        trace := s.trace ++ [OpEvent.getProjectOp pid] }) := by
  simp [getProjectDoc, dbOp, hf, noFaults, hfind]

theorem run_cascadeTransitionsDelete (ts : List WorkflowTransition) :
    ∀ s : DbState, s.faults = noFaults →
    cascadeTransitionsDelete ts s =
      (Except.ok (), { s with
        store := { s.store with
          transitions := s.store.transitions.filter
            (fun t => ts.all (fun u => !(t.id == u.id))) },
        opIdx := s.opIdx + ts.length,
        trace := s.trace ++ ts.map (fun u => OpEvent.deleteTransitionOp u.id) }) := by
  induction ts with
  | nil =>
    intro s hf
    simp [cascadeTransitionsDelete, DbM.pure]
  | cons u rest ih =>
    intro s hf
    unfold cascadeTransitionsDelete
    rw [run_bind, step_deleteTransition u.id s hf]
    simp only []
    rw [ih _ (by simp [hf])]
    simp [List.filter_filter, List.all_cons, Nat.add_assoc, Nat.add_comm, Nat.add_left_comm]
    apply List.filter_congr
    intro t _
    exact Bool.and_comm _ _

theorem filter_skip_selected (l : List WorkflowTransition)
    (hnd : (l.map (fun t => t.id)).Nodup) (p : WorkflowTransition → Bool) :
    l.filter (fun t => (l.filter p).all (fun u => !(t.id == u.id))) =
      l.filter (fun t => !(p t)) := by
  apply List.filter_congr
  intro t ht
  by_cases hp : p t = true
  · have htf : t ∈ l.filter p := List.mem_filter.mpr ⟨ht, hp⟩
    have : (l.filter p).all (fun u => !(t.id == u.id)) = false := by
      rw [List.all_eq_false]
      exact ⟨t, htf, by simp⟩
    rw [this, hp]
    rfl
  · have hp' : p t = false := by
      cases h : p t
      · rfl
      · exact absurd h hp
    have : (l.filter p).all (fun u => !(t.id == u.id)) = true := by
      rw [List.all_eq_true]
      intro u hu
      rcases List.mem_filter.mp hu with ⟨hul, hup⟩
      by_contra hne
      have hid : t.id = u.id := by
        cases h : t.id == u.id
        · rw [h] at hne
          exact absurd rfl hne
        · exact beq_iff_eq.mp h
      have := List.inj_on_of_nodup_map hnd ht hul hid
      rw [this] at hp'
      rw [hup] at hp'
      exact absurd hp' (by simp)
    rw [this, hp']
    rfl

theorem run_cascadeStatusesDelete (wfId : Nat) (ms : List WorkflowStatus) :
    ∀ s : DbState, s.faults = noFaults →
    (s.store.transitions.map (fun t => t.id)).Nodup →
    ∃ s', cascadeStatusesDelete wfId ms s = (Except.ok (), s') ∧
      s'.store.statuses = s.store.statuses.filter
        (fun x => ms.all (fun m => !(x.id == m.id))) ∧
      s'.store.transitions = s.store.transitions.filter
        (fun t => ms.all (fun m => !(transTouches wfId m.id t))) ∧
      s'.store.columns = s.store.columns ∧
      s'.store.projects = s.store.projects ∧
      s'.store.nextId = s.store.nextId ∧
      s'.faults = s.faults := by
  induction ms with
  | nil =>
    intro s hf _
    refine ⟨s, ?_, by simp, by simp, rfl, rfl, rfl, rfl⟩
    simp [cascadeStatusesDelete, DbM.pure]
  | cons m rest ih =>
    intro s hf hnd
    unfold cascadeStatusesDelete
    rw [run_bind, step_listTransTouching wfId m.id s hf]
    simp only []
    rw [run_bind]
    rw [run_cascadeTransitionsDelete (s.store.transitions.filter (transTouches wfId m.id)) _ (by simp [hf])]
    simp only []
    rw [run_bind, step_deleteStatus m.id _ (by simp [hf])]
    simp only []
    have htrans1 : s.store.transitions.filter
        (fun t => (s.store.transitions.filter (transTouches wfId m.id)).all
          (fun u => !(t.id == u.id))) =
        s.store.transitions.filter (fun t => !(transTouches wfId m.id t)) :=
      filter_skip_selected s.store.transitions hnd (transTouches wfId m.id)
    rw [htrans1]
    have hnd' : ((s.store.transitions.filter
        (fun t => !(transTouches wfId m.id t))).map (fun t => t.id)).Nodup :=
      ((List.filter_sublist _).map _).nodup hnd
    obtain ⟨s', hrun, hstat, htrans, hcols, hprojs, hnext, hflt⟩ :=
      ih { s with
        store := { s.store with
          statuses := s.store.statuses.filter (fun x => !(x.id == m.id)),
          transitions := s.store.transitions.filter (fun t => !(transTouches wfId m.id t)) },
        opIdx := s.opIdx + 1 + (s.store.transitions.filter (transTouches wfId m.id)).length + 1,
        trace := (s.trace ++ [OpEvent.listTransitionsOp] ++
          (s.store.transitions.filter (transTouches wfId m.id)).map
            (fun u => OpEvent.deleteTransitionOp u.id)) ++ [OpEvent.deleteStatusOp m.id] }
        (by simp [hf]) (by simpa using hnd')
    refine ⟨s', hrun, ?_, ?_, by simpa using hcols, by simpa using hprojs,
      by simpa using hnext, by simpa [hf] using hflt⟩
    · rw [hstat]
      simp only [List.filter_filter, List.all_cons]
      apply List.filter_congr
      intro x _
      exact Bool.and_comm _ _
    · rw [htrans]
      simp only [List.filter_filter, List.all_cons]
      apply List.filter_congr
      intro t _
      exact Bool.and_comm _ _

theorem run_cleanupWorkflowStatus (name : JStr) (pid : Nat) (proj : Project) (wfId : Nat)
    (s : DbState) (hf : s.faults = noFaults)
    (hproj : s.store.projects.find? (fun p => p.id == pid) = some proj)
    (hwf : proj.workflowId = some wfId)
    (hnd : (s.store.transitions.map (fun t => t.id)).Nodup) :
    ∃ s', cleanupWorkflowStatus name pid s = (Except.ok (), s') ∧
      s'.store.statuses = s.store.statuses.filter
        (fun x => (s.store.statuses.filter (statusMatches wfId name (normalizedKey name))).all
          (fun m => !(x.id == m.id))) ∧
      s'.store.transitions = s.store.transitions.filter
        (fun t => (s.store.statuses.filter (statusMatches wfId name (normalizedKey name))).all
          (fun m => !(transTouches wfId m.id t))) ∧
      s'.store.columns = s.store.columns ∧
      s'.store.projects = s.store.projects ∧
      s'.store.nextId = s.store.nextId ∧
      s'.faults = s.faults := by
  unfold cleanupWorkflowStatus
  rw [run_bind, step_getProject pid proj s hf hproj]
  simp only []
  rw [hwf]
  simp only []
  rw [run_bind, step_listStatusesMatching wfId name (normalizedKey name) _ (by simp [hf])]
  simp only []
  obtain ⟨s', hrun, hstat, htrans, hcols, hprojs, hnext, hflt⟩ :=
    run_cascadeStatusesDelete wfId
      (s.store.statuses.filter (statusMatches wfId name (normalizedKey name)))
      ({ s with
        opIdx := s.opIdx + 1 + 1,
        trace := s.trace ++ [OpEvent.getProjectOp pid] ++ [OpEvent.listStatusesOp] })
      (by simp [hf]) (by simpa using hnd)
  exact ⟨s', hrun, by simpa using hstat, by simpa using htrans, by simpa using hcols,
    by simpa using hprojs, by simpa using hnext, by simpa [hf] using hflt⟩

theorem statuses_filter_id_eq_match (statuses : List WorkflowStatus)
    (wfId : Nat) (name key : JStr)
    (hnd : (statuses.map (fun x => x.id)).Nodup) :
    statuses.filter (fun x => (statuses.filter (statusMatches wfId name key)).all
      (fun m => !(x.id == m.id))) =
    statuses.filter (fun x => !(statusMatches wfId name key x)) := by
  apply List.filter_congr
  intro x hx
  by_cases hp : statusMatches wfId name key x = true
  · have hxf : x ∈ statuses.filter (statusMatches wfId name key) :=
      List.mem_filter.mpr ⟨hx, hp⟩
    have : (statuses.filter (statusMatches wfId name key)).all
        (fun m => !(x.id == m.id)) = false := by
      rw [List.all_eq_false]
      exact ⟨x, hxf, by simp⟩
    rw [this, hp]
    rfl
  · have hp' : statusMatches wfId name key x = false := by
      cases h : statusMatches wfId name key x
      · rfl
      · exact absurd h hp
    have : (statuses.filter (statusMatches wfId name key)).all
        (fun m => !(x.id == m.id)) = true := by
      rw [List.all_eq_true]
      intro m hm
      rcases List.mem_filter.mp hm with ⟨hml, hmp⟩
      by_contra hne
      have hid : x.id = m.id := by
        cases h : x.id == m.id
        · rw [h] at hne
          exact absurd rfl hne
        · exact beq_iff_eq.mp h
      have := List.inj_on_of_nodup_map hnd hx hml hid
      rw [this] at hp'
      rw [hmp] at hp'
      exact absurd hp' (by simp)
    rw [this, hp']
    rfl

theorem step_getColumn (id : Nat) (col : CustomColumn) (s : DbState)
    (hf : s.faults = noFaults)
    (hfind : s.store.columns.find? (fun c => c.id == id) = some col) :
    getColumnDoc id s =
      (Except.ok col, { s with
        opIdx := s.opIdx + 1,
        trace := s.trace ++ [OpEvent.getColumnOp id] }) := by
  simp [getColumnDoc, dbOp, hf, noFaults, hfind]

theorem step_deleteColumn (id : Nat) (col : CustomColumn) (s : DbState)
    (hf : s.faults = noFaults)
    (hfind : s.store.columns.find? (fun c => c.id == id) = some col) :
    deleteColumnDoc id s =
      (Except.ok (), { s with
        store := { s.store with
          columns := s.store.columns.filter (fun c => !(c.id == id)) },
        opIdx := s.opIdx + 1,
        trace := s.trace ++ [OpEvent.deleteColumnOp id] }) := by
  simp [deleteColumnDoc, dbOp, hf, noFaults, hfind]

theorem run_deleteColumn_spec (colId : Nat) (st : Store) (col : CustomColumn)
    (pid : Nat) (proj : Project) (wfId : Nat)
    (hcol : st.columns.find? (fun c => c.id == colId) = some col)
    (hname : col.name ≠ [])
    (hpid : col.projectId = some pid)
    (hproj : st.projects.find? (fun p => p.id == pid) = some proj)
    (hwf : proj.workflowId = some wfId)
    (hndT : (st.transitions.map (fun t => t.id)).Nodup)
    (hndS : (st.statuses.map (fun x => x.id)).Nodup) :
    ∃ s', runDelete colId st noFaults = (Except.ok colId, s') ∧
      s'.store.columns = st.columns.filter (fun c => !(c.id == colId)) ∧
      s'.store.statuses = st.statuses.filter
        (fun x => !(statusMatches wfId col.name (normalizedKey col.name) x)) ∧
      s'.store.transitions = st.transitions.filter
        (fun t => (st.statuses.filter
          (statusMatches wfId col.name (normalizedKey col.name))).all
            (fun m => !(transTouches wfId m.id t))) ∧
      s'.store.projects = st.projects := by
  unfold runDelete deleteColumn
  rw [run_bind, run_dbTry, run_bind, step_getColumn colId col (initState st noFaults) rfl
    (by simpa [initState] using hcol)]
  simp only []
  rw [run_pure]
  simp only []
  rw [run_bind, step_deleteColumn colId col _ rfl (by simpa [initState] using hcol)]
  simp only []
  rw [hpid]
  simp only []
  have hempty : col.name.isEmpty = false := by
    cases hn : col.name with
    | nil => exact absurd hn hname
    | cons a as => rfl
  rw [hempty]
  simp only [Bool.false_eq_true, if_false]
  obtain ⟨s', hrun, hstat, htrans, hcols, hprojs, hnext, hflt⟩ :=
    run_cleanupWorkflowStatus col.name pid proj wfId
      ({ initState st noFaults with
        store := { st with
          columns := st.columns.filter (fun c => !(c.id == colId)) },
        opIdx := 0 + 1 + 1,
        trace := [] ++ [OpEvent.getColumnOp colId] ++ [OpEvent.deleteColumnOp colId] })
      (by simp [initState]) (by simpa [initState] using hproj) hwf
      (by simpa [initState] using hndT)
  rw [run_bind, run_dbTry]
  simp only [initState] at hrun ⊢
  rw [hrun]
  simp only []
  rw [run_pure]
  refine ⟨s', rfl, ?_, ?_, ?_, ?_⟩
  · rw [hcols]
  · rw [hstat]
    simpa using statuses_filter_id_eq_match st.statuses wfId col.name (normalizedKey col.name) hndS
  · rw [htrans]
  · rw [hprojs]

/-- C8: The key normalization (lowercase, collapse every run of whitespace,
hyphen or underscore to a single underscore, then uppercase) is idempotent:
re-applying it to an already-normalized string is a no-op, for every input
string. -/
theorem normalizedKey_idempotent (name : JStr) :
    normalizedKey (normalizedKey name) = normalizedKey name := by
  have h1 := normalizedKey_collapse_fixed name
  calc normalizedKey (normalizedKey name)
      = (collapseSeps ((normalizedKey name).map jsToLower)).map jsToUpper := rfl
    _ = (collapseSeps (collapseSeps (name.map jsToLower))).map jsToUpper := by rw [h1]
    _ = (collapseSeps (name.map jsToLower)).map jsToUpper := by rw [collapseSeps_idem]
    _ = normalizedKey name := rfl

theorem step_getColumn_fault (id : Nat) (e : DbError) (s : DbState)
    (hf : s.faults s.opIdx = some e) :
    getColumnDoc id s =
      (Except.error e, { s with
        opIdx := s.opIdx + 1,
        trace := s.trace ++ [OpEvent.getColumnOp id] }) := by
  simp [getColumnDoc, dbOp, hf]

theorem step_getColumn_slot (id : Nat) (col : CustomColumn) (s : DbState)
    (hf : s.faults s.opIdx = none)
    (hfind : s.store.columns.find? (fun c => c.id == id) = some col) :
    getColumnDoc id s =
      (Except.ok col, { s with
        opIdx := s.opIdx + 1,
        trace := s.trace ++ [OpEvent.getColumnOp id] }) := by
  simp [getColumnDoc, dbOp, hf, hfind]

theorem step_deleteColumn_slot (id : Nat) (col : CustomColumn) (s : DbState)
    (hf : s.faults s.opIdx = none)
    (hfind : s.store.columns.find? (fun c => c.id == id) = some col) :
    deleteColumnDoc id s =
      (Except.ok (), { s with
        store := { s.store with
          columns := s.store.columns.filter (fun c => !(c.id == id)) },
        opIdx := s.opIdx + 1,
        trace := s.trace ++ [OpEvent.deleteColumnOp id] }) := by
  simp [deleteColumnDoc, dbOp, hf, hfind]

/-- C2: Deleting a column with a known non-empty name and a projectId whose
project is linked to a workflow deletes, from that workflow, every status
matching the column's name or normalized key together with every transition
of the workflow having a matched status as either endpoint — and, for any
fault oracle that lets the primary delete through (in particular when the
project or workflow lookup fails), the column document itself is removed. -/
theorem delete_cascades_matching_statuses (colId : Nat) (st : Store)
    (col : CustomColumn) (pid : Nat) (proj : Project) (wfId : Nat)
    (hcol : st.columns.find? (fun c => c.id == colId) = some col)
    (hname : col.name ≠ [])
    (hpid : col.projectId = some pid)
    (hproj : st.projects.find? (fun p => p.id == pid) = some proj)
    (hwf : proj.workflowId = some wfId)
    (hndT : (st.transitions.map (fun t => t.id)).Nodup)
    (hndS : (st.statuses.map (fun x => x.id)).Nodup) :
    (∃ s', runDelete colId st noFaults = (Except.ok colId, s') ∧
      s'.store.columns = st.columns.filter (fun c => !(c.id == colId)) ∧
      s'.store.statuses = st.statuses.filter
        (fun x => !(statusMatches wfId col.name (normalizedKey col.name) x)) ∧
      s'.store.transitions = st.transitions.filter
        (fun t => (st.statuses.filter
          (statusMatches wfId col.name (normalizedKey col.name))).all
            (fun m => !(transTouches wfId m.id t)))) ∧
    (∀ faults : Nat → Option DbError, faults 1 = none →
      ((runDelete colId st faults).2).store.columns =
        st.columns.filter (fun c => !(c.id == colId))) := by
  constructor
  · obtain ⟨s', hrun, hcols, hstat, htrans, _⟩ :=
      run_deleteColumn_spec colId st col pid proj wfId hcol hname hpid hproj hwf hndT hndS
    exact ⟨s', hrun, hcols, hstat, htrans⟩
  · intro faults hf1
    unfold runDelete deleteColumn
    cases h0 : faults 0 with
    | some e =>
      rw [run_bind, run_dbTry, run_bind,
        step_getColumn_fault colId e (initState st faults) (by simpa [initState] using h0)]
      simp only []
      rw [run_DbM_pure]
      simp only []
      rw [run_bind, step_deleteColumn_slot colId col _ (by simpa [initState] using hf1)
        (by simpa [initState] using hcol)]
      simp only []
      have htail : ∀ s : DbState,
          (((DbM.pure () : DbM Unit) >>= fun _ => (pure colId : DbM Nat)) s).2.store.columns =
            s.store.columns :=
        columnsStable_bind (StoreField_pure (fun x => x.columns) ())
          (fun _ => StoreField_pure (fun x => x.columns) colId)
      rw [htail]
      simp [initState]
    | none =>
      rw [run_bind, run_dbTry, run_bind,
        step_getColumn_slot colId col (initState st faults) (by simpa [initState] using h0)
          (by simpa [initState] using hcol)]
      simp only []
      rw [run_pure]
      simp only []
      rw [run_bind, step_deleteColumn_slot colId col _ (by simpa [initState] using hf1)
        (by simpa [initState] using hcol)]
      simp only []
      rw [hpid]
      simp only []
      have hempty : col.name.isEmpty = false := by
        cases hn : col.name with
        | nil => exact absurd hn hname
        | cons a as => rfl
      rw [hempty]
      simp only [Bool.false_eq_true, if_false]
      have hstab : ∀ s : DbState,
          (((dbTry (cleanupWorkflowStatus col.name pid) (fun _ => DbM.pure ())) >>=
            fun _ => (pure colId : DbM Nat)) s).2.store.columns = s.store.columns :=
        columnsStable_bind
          (columnsStable_dbTry (columns_cleanupWorkflowStatus col.name pid)
            (fun _ => StoreField_pure (fun x => x.columns) ()))
          (fun _ => StoreField_pure (fun x => x.columns) colId)
      rw [hstab]
      simp [initState]

theorem delete_cascades_matching_statuses_witness :
    (wStore.columns.find? (fun c => c.id == 50) = some wCol ∧
      wCol.name ≠ [] ∧
      wCol.projectId = some 1 ∧
      wStore.projects.find? (fun p => p.id == 1) = some wProject ∧
      wProject.workflowId = some 7 ∧
      (wStore.transitions.map (fun t => t.id)).Nodup ∧
      (wStore.statuses.map (fun x => x.id)).Nodup) ∧
    ((∃ s', runDelete 50 wStore noFaults = (Except.ok 50, s') ∧
      s'.store.columns = wStore.columns.filter (fun c => !(c.id == 50)) ∧
      s'.store.statuses = wStore.statuses.filter
        (fun x => !(statusMatches 7 wCol.name (normalizedKey wCol.name) x)) ∧
      s'.store.transitions = wStore.transitions.filter
        (fun t => (wStore.statuses.filter
          (statusMatches 7 wCol.name (normalizedKey wCol.name))).all
            (fun m => !(transTouches 7 m.id t)))) ∧
    (∀ faults : Nat → Option DbError, faults 1 = none →
      ((runDelete 50 wStore faults).2).store.columns =
        wStore.columns.filter (fun c => !(c.id == 50)))) :=
  ⟨⟨by decide, by decide, by decide, by decide, by decide, by decide, by decide⟩,
    delete_cascades_matching_statuses 50 wStore wCol 1 wProject 7
      (by decide) (by decide) (by decide) (by decide) (by decide) (by decide) (by decide)⟩

/-- C4: Creating a project column whose linked workflow already has a status
with the column's name or its normalized key creates no new status: the
workflow-status collection is unchanged. -/
theorem post_skips_duplicate_status (input : CreateColumnInput) (st : Store)
    (pid : Nat) (proj : Project) (wfId : Nat)
    (hpid : input.projectId = some pid)
    (hwid : input.workflowId = none)
    (hproj : st.projects.find? (fun p => p.id == pid) = some proj)
    (hwf : proj.workflowId = some wfId)
    (hmatch : st.statuses.filter (statusMatches wfId input.name (normalizedKey input.name)) ≠ []) :
    ((runPost input st noFaults).2).store.statuses = st.statuses := by
  have hcond : ¬ ∀ a ∈ st.statuses,
      statusMatches wfId input.name (normalizedKey input.name) a = false := by
    intro hall
    exact hmatch (List.filter_eq_nil_iff.mpr (by simpa using hall))
  unfold runPost postColumn initState
  cases hpos : input.position with
  | some p =>
    simp [run_bind, run_pure, run_DbM_pure, run_dbTry, createColumnDoc, dbOp, noFaults,
      syncColumnToWorkflow, getProjectDoc, listStatusesMatching, hpid, hwid, hproj, hwf, hcond]
  | none =>
    simp [run_bind, run_pure, run_DbM_pure, run_dbTry, createColumnDoc, listColumnsTop, dbOp,
      noFaults, syncColumnToWorkflow, getProjectDoc, listStatusesMatching, hpid, hwid, hproj,
      hwf, hcond]

theorem post_skips_duplicate_status_witness :
    (wInput.projectId = some 1 ∧
      wInput.workflowId = none ∧
      wStore.projects.find? (fun p => p.id == 1) = some wProject ∧
      wProject.workflowId = some 7 ∧
      wStore.statuses.filter
        (statusMatches 7 wInput.name (normalizedKey wInput.name)) ≠ []) ∧
    ((runPost wInput wStore noFaults).2).store.statuses = wStore.statuses :=
  ⟨⟨by decide, by decide, by decide, by decide, by decide⟩,
    post_skips_duplicate_status wInput wStore 1 wProject 7
      (by decide) (by decide) (by decide) (by decide) (by decide)⟩

/-- C1: Creating a project column (projectId set, workflowId unset) whose
project is linked to a workflow containing no status with the column's name
or normalized key appends exactly one new status: name = column name,
key = normalized key, statusType = "OPEN", isInitial = isFinal = false,
position = prior maximum workflow position + 1 (or 0 when the workflow had
no statuses), positionX = 100 + position × 180, positionY = 100,
icon = column icon or "Circle", color = column color or "#6B7280"
(the defaults apply when the value is absent or the empty string, as with
the JS or-operator in the source). -/
theorem post_autocreates_missing_status (input : CreateColumnInput) (st : Store)
    (pid : Nat) (proj : Project) (wfId : Nat)
    (hpid : input.projectId = some pid)
    (hwid : input.workflowId = none)
    (hproj : st.projects.find? (fun p => p.id == pid) = some proj)
    (hwf : proj.workflowId = some wfId)
    (hmatch : st.statuses.filter (statusMatches wfId input.name (normalizedKey input.name)) = []) :
    ((runPost input st noFaults).2).store.statuses =
      st.statuses ++ [{
        id := st.nextId + 1,
        workflowId := wfId,
        name := input.name,
        key := normalizedKey input.name,
        icon := jsOrDefault input.icon strCircle,
        color := jsOrDefault input.color strDefaultColor,
        statusType := strOPEN,
        description := none,
        position := statusPosAlloc wfId st.statuses,
        positionX := 100 + statusPosAlloc wfId st.statuses * 180,
        positionY := 100,
        isInitial := false,
        isFinal := false }] ∧
    ((st.statuses.filter (fun x => x.workflowId == wfId) = [] ∧
        statusPosAlloc wfId st.statuses = 0) ∨
      (∃ y ∈ st.statuses.filter (fun x => x.workflowId == wfId),
        statusPosAlloc wfId st.statuses = y.position + 1 ∧
        ∀ x ∈ st.statuses.filter (fun x => x.workflowId == wfId),
          x.position ≤ y.position)) := by
  refine ⟨?_, statusPosAlloc_spec wfId st.statuses⟩
  have hall : ∀ a ∈ st.statuses,
      statusMatches wfId input.name (normalizedKey input.name) a = false := by
    intro a ha
    have := List.filter_eq_nil_iff.mp hmatch a ha
    cases h : statusMatches wfId input.name (normalizedKey input.name) a
    · rfl
    · exact absurd h this
  unfold runPost postColumn initState
  cases hpos : input.position with
  | some p =>
    simp [run_bind, run_pure, run_DbM_pure, run_dbTry, createColumnDoc, dbOp, noFaults,
      syncColumnToWorkflow, getProjectDoc, listStatusesMatching, listStatusesTop,
      createStatusDoc, statusPosAlloc, hpid, hwid, hproj, hwf, iff_true_intro hall]
  | none =>
    simp [run_bind, run_pure, run_DbM_pure, run_dbTry, createColumnDoc, listColumnsTop, dbOp,
      noFaults, syncColumnToWorkflow, getProjectDoc, listStatusesMatching, listStatusesTop,
      createStatusDoc, statusPosAlloc, hpid, hwid, hproj, hwf, iff_true_intro hall]

theorem post_autocreates_missing_status_witness :
    (wInput.projectId = some 1 ∧
      wInput.workflowId = none ∧
      wStoreNoStatus.projects.find? (fun p => p.id == 1) = some wProject ∧
      wProject.workflowId = some 7 ∧
      wStoreNoStatus.statuses.filter
        (statusMatches 7 wInput.name (normalizedKey wInput.name)) = []) ∧
    (((runPost wInput wStoreNoStatus noFaults).2).store.statuses =
      wStoreNoStatus.statuses ++ [{
        id := wStoreNoStatus.nextId + 1,
        workflowId := 7,
        name := wInput.name,
        key := normalizedKey wInput.name,
        icon := jsOrDefault wInput.icon strCircle,
        color := jsOrDefault wInput.color strDefaultColor,
        statusType := strOPEN,
        description := none,
        position := statusPosAlloc 7 wStoreNoStatus.statuses,
        positionX := 100 + statusPosAlloc 7 wStoreNoStatus.statuses * 180,
        positionY := 100,
        isInitial := false,
        isFinal := false }] ∧
    ((wStoreNoStatus.statuses.filter (fun x => x.workflowId == 7) = [] ∧
        statusPosAlloc 7 wStoreNoStatus.statuses = 0) ∨
      (∃ y ∈ wStoreNoStatus.statuses.filter (fun x => x.workflowId == 7),
        statusPosAlloc 7 wStoreNoStatus.statuses = y.position + 1 ∧
        ∀ x ∈ wStoreNoStatus.statuses.filter (fun x => x.workflowId == 7),
          x.position ≤ y.position))) :=
  ⟨⟨by decide, by decide, by decide, by decide, by decide⟩,
    post_autocreates_missing_status wInput wStoreNoStatus 1 wProject 7
      (by decide) (by decide) (by decide) (by decide) (by decide)⟩

theorem step_listColumnsTop (workspaceId : Nat) (projectId workflowId : Option Nat)
    (s : DbState) (hf : s.faults = noFaults) :
    listColumnsTop workspaceId projectId workflowId s =
      (Except.ok (pickMaxPos (fun c => c.position)
        (s.store.columns.filter (colScopeMatch workspaceId projectId workflowId))), { s with
        opIdx := s.opIdx + 1,
        trace := s.trace ++ [OpEvent.listColumnsOp] }) := by
  simp [listColumnsTop, dbOp, hf, noFaults]

theorem step_createColumn (name : JStr) (workspaceId : Nat)
    (projectId workflowId : Option Nat) (icon color : Option JStr) (position : Int)
    (s : DbState) (hf : s.faults = noFaults) :
    createColumnDoc name workspaceId projectId workflowId icon color position s =
      (Except.ok {
          id := s.store.nextId,
          name := name,
          workspaceId := workspaceId,
          projectId := projectId,
          workflowId := workflowId,
          icon := icon,
          color := color,
          position := position }, { s with
        store := { s.store with
          columns := s.store.columns ++ [{
            id := s.store.nextId,
            name := name,
            workspaceId := workspaceId,
            projectId := projectId,
            workflowId := workflowId,
            icon := icon,
            color := color,
            position := position }],
          nextId := s.store.nextId + 1 },
        opIdx := s.opIdx + 1,
        trace := s.trace ++ [OpEvent.createColumnOp] }) := by
  simp [createColumnDoc, dbOp, hf, noFaults]

theorem syncTail_run {α : Type} (x : DbM Unit) (v : α) (s : DbState) :
    ((dbTry x (fun _ => DbM.pure ()) >>= fun _ => (pure v : DbM α)) s) =
      (Except.ok v, (dbTry x (fun _ => DbM.pure ()) s).2) := by
  have h1 := dbTry_catchAll_fst x s
  rcases h : dbTry x (fun _ => DbM.pure ()) s with ⟨r, s1⟩
  rw [h] at h1
  simp only [] at h1
  subst h1
  rw [run_bind, h]
  simp [run_pure]

/-- C6: A column create with no explicit position stores position =
prior maximum position in the (workspaceId, projectId?, workflowId?) scope
+ 1000, or 1000 when the scope holds no columns. -/
theorem post_allocates_position_with_gap (input : CreateColumnInput) (st : Store)
    (hpos : input.position = none) :
    (runPost input st noFaults).1 = Except.ok {
        id := st.nextId,
        name := input.name,
        workspaceId := input.workspaceId,
        projectId := input.projectId,
        workflowId := input.workflowId,
        icon := input.icon,
        color := input.color,
        position := columnPosAlloc input.workspaceId input.projectId input.workflowId st.columns } ∧
    ((runPost input st noFaults).2).store.columns =
      st.columns ++ [{
        id := st.nextId,
        name := input.name,
        workspaceId := input.workspaceId,
        projectId := input.projectId,
        workflowId := input.workflowId,
        icon := input.icon,
        color := input.color,
        position := columnPosAlloc input.workspaceId input.projectId input.workflowId st.columns }] ∧
    ((st.columns.filter (colScopeMatch input.workspaceId input.projectId input.workflowId) = [] ∧
        columnPosAlloc input.workspaceId input.projectId input.workflowId st.columns = 1000) ∨
      (∃ y ∈ st.columns.filter (colScopeMatch input.workspaceId input.projectId input.workflowId),
        columnPosAlloc input.workspaceId input.projectId input.workflowId st.columns =
          y.position + 1000 ∧
        ∀ x ∈ st.columns.filter (colScopeMatch input.workspaceId input.projectId input.workflowId),
          x.position ≤ y.position)) := by
  have hrun1 : (runPost input st noFaults).1 = Except.ok {
      id := st.nextId,
      name := input.name,
      workspaceId := input.workspaceId,
      projectId := input.projectId,
      workflowId := input.workflowId,
      icon := input.icon,
      color := input.color,
      position := columnPosAlloc input.workspaceId input.projectId input.workflowId st.columns } := by
    unfold runPost postColumn initState
    rw [hpos]
    simp only []
    cases hpid : input.projectId with
    | none =>
      simp [run_bind, run_pure, run_DbM_pure, run_dbTry, createColumnDoc, listColumnsTop,
        dbOp, noFaults, columnPosAlloc, hpid]
    | some pid =>
      cases hwid : input.workflowId with
      | some wid =>
        simp [run_bind, run_pure, run_DbM_pure, run_dbTry, createColumnDoc, listColumnsTop,
          dbOp, noFaults, columnPosAlloc, hpid, hwid]
      | none =>
        rw [run_bind, step_listColumnsTop input.workspaceId (some pid) none
          { store := st, faults := noFaults, opIdx := 0, trace := [] } rfl]
        simp only []
        rw [run_bind, run_pure]
        simp only []
        rw [run_bind, step_createColumn input.name input.workspaceId (some pid) none
          input.icon input.color _ _ (by rfl)]
        simp only []
        rw [syncTail_run]
        simp [columnPosAlloc]
  have hrun2 : ((runPost input st noFaults).2).store.columns = st.columns ++ [{
      id := st.nextId,
      name := input.name,
      workspaceId := input.workspaceId,
      projectId := input.projectId,
      workflowId := input.workflowId,
      icon := input.icon,
      color := input.color,
      position := columnPosAlloc input.workspaceId input.projectId input.workflowId st.columns }] := by
    unfold runPost postColumn initState
    rw [hpos]
    simp only []
    cases hpid : input.projectId with
    | none =>
      simp [run_bind, run_pure, run_DbM_pure, run_dbTry, createColumnDoc, listColumnsTop,
        dbOp, noFaults, columnPosAlloc, hpid]
    | some pid =>
      cases hwid : input.workflowId with
      | some wid =>
        simp [run_bind, run_pure, run_DbM_pure, run_dbTry, createColumnDoc, listColumnsTop,
          dbOp, noFaults, columnPosAlloc, hpid, hwid]
      | none =>
        rw [run_bind, step_listColumnsTop input.workspaceId (some pid) none
          { store := st, faults := noFaults, opIdx := 0, trace := [] } rfl]
        simp only []
        rw [run_bind, run_pure]
        simp only []
        rw [run_bind, step_createColumn input.name input.workspaceId (some pid) none
          input.icon input.color _ _ (by rfl)]
        simp only []
        rw [syncTail_run]
        simp only []
        have hstab := columnsStable_dbTry
          (columns_syncColumnToWorkflow pid input.name input.icon input.color)
          (fun _ => StoreField_pure (fun x => x.columns) ())
        rw [hstab]
        simp [columnPosAlloc]
  exact ⟨hrun1, hrun2,
    columnPosAlloc_spec input.workspaceId input.projectId input.workflowId st.columns⟩

theorem post_allocates_position_with_gap_witness :
    (wInput.position = none) ∧
    ((runPost wInput wStore noFaults).1 = Except.ok {
        id := wStore.nextId,
        name := wInput.name,
        workspaceId := wInput.workspaceId,
        projectId := wInput.projectId,
        workflowId := wInput.workflowId,
        icon := wInput.icon,
        color := wInput.color,
        position := columnPosAlloc wInput.workspaceId wInput.projectId wInput.workflowId wStore.columns } ∧
    ((runPost wInput wStore noFaults).2).store.columns =
      wStore.columns ++ [{
        id := wStore.nextId,
        name := wInput.name,
        workspaceId := wInput.workspaceId,
        projectId := wInput.projectId,
        workflowId := wInput.workflowId,
        icon := wInput.icon,
        color := wInput.color,
        position := columnPosAlloc wInput.workspaceId wInput.projectId wInput.workflowId wStore.columns }] ∧
    ((wStore.columns.filter (colScopeMatch wInput.workspaceId wInput.projectId wInput.workflowId) = [] ∧
        columnPosAlloc wInput.workspaceId wInput.projectId wInput.workflowId wStore.columns = 1000) ∨
      (∃ y ∈ wStore.columns.filter (colScopeMatch wInput.workspaceId wInput.projectId wInput.workflowId),
        columnPosAlloc wInput.workspaceId wInput.projectId wInput.workflowId wStore.columns =
          y.position + 1000 ∧
        ∀ x ∈ wStore.columns.filter (colScopeMatch wInput.workspaceId wInput.projectId wInput.workflowId),
          x.position ≤ y.position))) :=
  ⟨by decide, post_allocates_position_with_gap wInput wStore (by decide)⟩

/-- C10: A PATCH issues exactly one store operation — the column document
update — and reads or writes no project, workflow status or transition;
in particular the status collection (hence any previously matching
status's name) is untouched, for every store and every fault oracle. -/
theorem patch_writes_only_column_document (id : Nat) (u : UpdateColumnInput)
    (st : Store) (faults : Nat → Option DbError) :
    ((runPatch id u st faults).2).store.statuses = st.statuses ∧
    ((runPatch id u st faults).2).store.transitions = st.transitions ∧
    ((runPatch id u st faults).2).store.projects = st.projects ∧
    ((runPatch id u st faults).2).trace = [OpEvent.updateColumnOp id] := by
  unfold runPatch patchColumn updateColumnDoc dbOp initState
  cases hflt : faults 0 with
  | some e => simp [hflt]
  | none =>
    cases hfind : st.columns.find? (fun c => c.id == id) with
    | some c => simp [hflt, hfind]
    | none => simp [hflt, hfind]

/-- C9: When a column carries both projectId and workflowId, the POST
handler performs no status synchronization (its guard needs workflowId
unset): statuses, transitions and projects are untouched and only the
column list/create operations are issued. The DELETE handler's guard only
needs a known name and projectId, so deletion still runs the cascade and
removes matching workflow statuses that creation never produced. -/
theorem both_ids_skip_create_sync_but_cascade_on_delete :
    (∀ (input : CreateColumnInput) (st : Store) (pidv widv : Nat),
      input.projectId = some pidv → input.workflowId = some widv →
      ((runPost input st noFaults).2).store.statuses = st.statuses ∧
      ((runPost input st noFaults).2).store.transitions = st.transitions ∧
      ((runPost input st noFaults).2).store.projects = st.projects ∧
      ∀ e ∈ ((runPost input st noFaults).2).trace,
        e = OpEvent.listColumnsOp ∨ e = OpEvent.createColumnOp) ∧
    (∀ (colId : Nat) (st : Store) (col : CustomColumn) (pid wid : Nat)
        (proj : Project) (wfId : Nat),
      st.columns.find? (fun c => c.id == colId) = some col →
      col.name ≠ [] →
      col.projectId = some pid →
      col.workflowId = some wid →
      st.projects.find? (fun p => p.id == pid) = some proj →
      proj.workflowId = some wfId →
      (st.transitions.map (fun t => t.id)).Nodup →
      (st.statuses.map (fun x => x.id)).Nodup →
      ∃ s', runDelete colId st noFaults = (Except.ok colId, s') ∧
        s'.store.statuses = st.statuses.filter
          (fun x => !(statusMatches wfId col.name (normalizedKey col.name) x))) := by
  constructor
  · intro input st pidv widv hpid hwid
    unfold runPost postColumn initState
    cases hpos : input.position with
    | some p =>
      simp [run_bind, run_pure, run_DbM_pure, run_dbTry, createColumnDoc, dbOp,
        noFaults, hpid, hwid]
    | none =>
      simp [run_bind, run_pure, run_DbM_pure, run_dbTry, createColumnDoc, listColumnsTop,
        dbOp, noFaults, hpid, hwid]
  · intro colId st col pid wid proj wfId hcol hname hpid _hwid hproj hwf hndT hndS
    obtain ⟨s', hrun, _, hstat, _, _⟩ :=
      run_deleteColumn_spec colId st col pid proj wfId hcol hname hpid hproj hwf hndT hndS
    exact ⟨s', hrun, hstat⟩

theorem both_ids_skip_create_sync_but_cascade_on_delete_witness :
    ((wInputBoth.projectId = some 1 ∧ wInputBoth.workflowId = some 7) ∧
      ((runPost wInputBoth wStore noFaults).2).store.statuses = wStore.statuses ∧
      ((runPost wInputBoth wStore noFaults).2).store.transitions = wStore.transitions ∧
      ((runPost wInputBoth wStore noFaults).2).store.projects = wStore.projects ∧
      ∀ e ∈ ((runPost wInputBoth wStore noFaults).2).trace,
        e = OpEvent.listColumnsOp ∨ e = OpEvent.createColumnOp) ∧
    ((wStoreBoth.columns.find? (fun c => c.id == 51) = some wColBoth ∧
      wColBoth.name ≠ [] ∧
      wColBoth.projectId = some 1 ∧
      wColBoth.workflowId = some 9 ∧
      wStoreBoth.projects.find? (fun p => p.id == 1) = some wProject ∧
      wProject.workflowId = some 7 ∧
      (wStoreBoth.transitions.map (fun t => t.id)).Nodup ∧
      (wStoreBoth.statuses.map (fun x => x.id)).Nodup) ∧
      ∃ s', runDelete 51 wStoreBoth noFaults = (Except.ok 51, s') ∧
        s'.store.statuses = wStoreBoth.statuses.filter
          (fun x => !(statusMatches 7 wColBoth.name (normalizedKey wColBoth.name) x))) :=
  ⟨⟨⟨by decide, by decide⟩,
    both_ids_skip_create_sync_but_cascade_on_delete.1 wInputBoth wStore 1 7
      (by decide) (by decide)⟩,
   ⟨⟨by decide, by decide, by decide, by decide, by decide, by decide, by decide, by decide⟩,
    both_ids_skip_create_sync_but_cascade_on_delete.2 51 wStoreBoth wColBoth 1 9 wProject 7
      (by decide) (by decide) (by decide) (by decide) (by decide) (by decide)
      (by decide) (by decide)⟩⟩

theorem step_listColumnsTop_slot (workspaceId : Nat) (projectId workflowId : Option Nat)
    (s : DbState) (hf : s.faults s.opIdx = none) :
    listColumnsTop workspaceId projectId workflowId s =
      (Except.ok (pickMaxPos (fun c => c.position)
        (s.store.columns.filter (colScopeMatch workspaceId projectId workflowId))), { s with
        opIdx := s.opIdx + 1,
        trace := s.trace ++ [OpEvent.listColumnsOp] }) := by
  simp [listColumnsTop, dbOp, hf]

theorem step_createColumn_slot (name : JStr) (workspaceId : Nat)
    (projectId workflowId : Option Nat) (icon color : Option JStr) (position : Int)
    (s : DbState) (hf : s.faults s.opIdx = none) :
    createColumnDoc name workspaceId projectId workflowId icon color position s =
      (Except.ok {
          id := s.store.nextId,
          name := name,
          workspaceId := workspaceId,
          projectId := projectId,
          workflowId := workflowId,
          icon := icon,
          color := color,
          position := position }, { s with
        store := { s.store with
          columns := s.store.columns ++ [{
            id := s.store.nextId,
            name := name,
            workspaceId := workspaceId,
            projectId := projectId,
            workflowId := workflowId,
            icon := icon,
            color := color,
            position := position }],
          nextId := s.store.nextId + 1 },
        opIdx := s.opIdx + 1,
        trace := s.trace ++ [OpEvent.createColumnOp] }) := by
  simp [createColumnDoc, dbOp, hf]

theorem step_getColumn_missing (id : Nat) (s : DbState)
    (hf : s.faults s.opIdx = none)
    (hfind : s.store.columns.find? (fun c => c.id == id) = none) :
    getColumnDoc id s =
      (Except.error DbError.notFound, { s with
        opIdx := s.opIdx + 1,
        trace := s.trace ++ [OpEvent.getColumnOp id] }) := by
  simp [getColumnDoc, dbOp, hf, hfind]

theorem step_deleteColumn_missing (id : Nat) (s : DbState)
    (hf : s.faults s.opIdx = none)
    (hfind : s.store.columns.find? (fun c => c.id == id) = none) :
    deleteColumnDoc id s =
      (Except.error DbError.notFound, { s with
        opIdx := s.opIdx + 1,
        trace := s.trace ++ [OpEvent.deleteColumnOp id] }) := by
  simp [deleteColumnDoc, dbOp, hf, hfind]

theorem delete_ok_and_columns (colId : Nat) (st : Store) (col : CustomColumn)
    (faults : Nat → Option DbError)
    (hf1 : faults 1 = none)
    (hcol : st.columns.find? (fun c => c.id == colId) = some col) :
    (runDelete colId st faults).1 = Except.ok colId ∧
    ((runDelete colId st faults).2).store.columns =
      st.columns.filter (fun c => !(c.id == colId)) := by
  unfold runDelete deleteColumn
  cases h0 : faults 0 with
  | some e =>
    rw [run_bind, run_dbTry, run_bind,
      step_getColumn_fault colId e (initState st faults) (by simpa [initState] using h0)]
    simp only []
    rw [run_DbM_pure]
    simp only []
    rw [run_bind, step_deleteColumn_slot colId col _ (by simpa [initState] using hf1)
      (by simpa [initState] using hcol)]
    simp only []
    rw [run_bind, run_DbM_pure]
    simp only []
    rw [run_pure]
    constructor
    · rfl
    · simp [initState]
  | none =>
    rw [run_bind, run_dbTry, run_bind,
      step_getColumn_slot colId col (initState st faults) (by simpa [initState] using h0)
        (by simpa [initState] using hcol)]
    simp only []
    rw [run_pure]
    simp only []
    rw [run_bind, step_deleteColumn_slot colId col _ (by simpa [initState] using hf1)
      (by simpa [initState] using hcol)]
    simp only []
    cases hcp : col.projectId with
    | none =>
      simp only []
      rw [run_bind, run_DbM_pure]
      simp only []
      rw [run_pure]
      constructor
      · rfl
      · simp [initState]
    | some pid =>
      simp only []
      cases hemp : col.name.isEmpty with
      | true =>
        simp only [if_true]
        rw [run_bind, run_DbM_pure]
        simp only []
        rw [run_pure]
        constructor
        · rfl
        · simp [initState]
      | false =>
        simp only [Bool.false_eq_true, if_false]
        rw [syncTail_run]
        constructor
        · rfl
        · simp only []
          have hstab := columnsStable_dbTry
            (columns_cleanupWorkflowStatus col.name pid)
            (fun _ => StoreField_pure (fun x => x.columns) ())
          rw [hstab]
          simp [initState]

/-- C3: Any error inside the synchronization step is caught and suppressed:
whenever the operations up to and including the column write (POST) or the
column removal (DELETE) go through, the request reports success — with the
created column on POST and with the column id acknowledgment on DELETE —
no matter what errors any later store call raises. On POST the column write
is operation 0 for an explicit position and operation 1 after the implicit
position lookup; a project-lookup or any other sync failure may occupy any
later slot. -/
theorem sync_errors_never_fail_request :
    (∀ (input : CreateColumnInput) (st : Store) (faults : Nat → Option DbError),
      faults 0 = none → (input.position = none → faults 1 = none) →
      ∃ col, (runPost input st faults).1 = Except.ok col ∧
        col.name = input.name ∧ col.workspaceId = input.workspaceId ∧
        col.projectId = input.projectId ∧ col.workflowId = input.workflowId) ∧
    (∀ (colId : Nat) (st : Store) (col : CustomColumn) (faults : Nat → Option DbError),
      faults 1 = none →
      st.columns.find? (fun c => c.id == colId) = some col →
      (runDelete colId st faults).1 = Except.ok colId) := by
  constructor
  · intro input st faults h0 h1
    unfold runPost postColumn initState
    cases hpos : input.position with
    | some p =>
      simp only []
      rw [run_bind, run_DbM_pure]
      simp only []
      rw [run_bind, step_createColumn_slot input.name input.workspaceId input.projectId
        input.workflowId input.icon input.color p _ (by simpa using h0)]
      simp only []
      cases hpid : input.projectId with
      | none =>
        simp only []
        rw [run_bind, run_DbM_pure]
        simp only []
        rw [run_pure]
        exact ⟨_, rfl, rfl, rfl, rfl, rfl⟩
      | some pid =>
        cases hwid : input.workflowId with
        | some wid =>
          simp only []
          rw [run_bind, run_DbM_pure]
          simp only []
          rw [run_pure]
          exact ⟨_, rfl, rfl, rfl, rfl, rfl⟩
        | none =>
          simp only []
          rw [syncTail_run]
          exact ⟨_, rfl, rfl, rfl, rfl, rfl⟩
    | none =>
      simp only []
      rw [run_bind, step_listColumnsTop_slot input.workspaceId input.projectId
        input.workflowId _ (by simpa using h0)]
      simp only []
      rw [run_bind, run_pure]
      simp only []
      rw [run_bind, step_createColumn_slot input.name input.workspaceId input.projectId
        input.workflowId input.icon input.color _ _ (by simpa using h1 hpos)]
      simp only []
      cases hpid : input.projectId with
      | none =>
        simp only []
        rw [run_bind, run_DbM_pure]
        simp only []
        rw [run_pure]
        exact ⟨_, rfl, rfl, rfl, rfl, rfl⟩
      | some pid =>
        cases hwid : input.workflowId with
        | some wid =>
          simp only []
          rw [run_bind, run_DbM_pure]
          simp only []
          rw [run_pure]
          exact ⟨_, rfl, rfl, rfl, rfl, rfl⟩
        | none =>
          simp only []
          rw [syncTail_run]
          exact ⟨_, rfl, rfl, rfl, rfl, rfl⟩
  · intro colId st col faults hf1 hcol
    exact (delete_ok_and_columns colId st col faults hf1 hcol).1

theorem sync_errors_never_fail_request_witness :
    ((noFaults 0 = none ∧ (wInput.position = none → noFaults 1 = none)) ∧
      (∃ col, (runPost wInput wStore noFaults).1 = Except.ok col ∧
        col.name = wInput.name ∧ col.workspaceId = wInput.workspaceId ∧
        col.projectId = wInput.projectId ∧ col.workflowId = wInput.workflowId)) ∧
    ((noFaults 1 = none ∧
      wStore.columns.find? (fun c => c.id == 50) = some wCol) ∧
      (runDelete 50 wStore noFaults).1 = Except.ok 50) :=
  ⟨⟨⟨by decide, fun _ => by decide⟩,
    sync_errors_never_fail_request.1 wInput wStore noFaults (by decide) (fun _ => by decide)⟩,
   ⟨⟨by decide, by decide⟩,
    sync_errors_never_fail_request.2 50 wStore wCol noFaults (by decide) (by decide)⟩⟩

theorem trace_deleteTransition_try (tid : Nat) (s : DbState) :
    ((dbTry (deleteTransitionDoc tid) (fun _ => DbM.pure ())) s).2.trace =
      s.trace ++ [OpEvent.deleteTransitionOp tid] := by
  cases hflt : s.faults s.opIdx with
  | some e => simp [dbTry, deleteTransitionDoc, dbOp, hflt, DbM.pure]
  | none =>
    cases hfind : s.store.transitions.find? (fun t => t.id == tid) with
    | some t => simp [dbTry, deleteTransitionDoc, dbOp, hflt, hfind]
    | none => simp [dbTry, deleteTransitionDoc, dbOp, hflt, hfind, DbM.pure]

theorem trace_deleteStatus_try (sid : Nat) (s : DbState) :
    ((dbTry (deleteStatusDoc sid) (fun _ => DbM.pure ())) s).2.trace =
      s.trace ++ [OpEvent.deleteStatusOp sid] := by
  cases hflt : s.faults s.opIdx with
  | some e => simp [dbTry, deleteStatusDoc, dbOp, hflt, DbM.pure]
  | none =>
    cases hfind : s.store.statuses.find? (fun x => x.id == sid) with
    | some x => simp [dbTry, deleteStatusDoc, dbOp, hflt, hfind]
    | none => simp [dbTry, deleteStatusDoc, dbOp, hflt, hfind, DbM.pure]

theorem step_listTransTouching_slot (wfId sid : Nat) (s : DbState)
    (hf : s.faults s.opIdx = none) :
    listTransTouching wfId sid s =
      (Except.ok (s.store.transitions.filter (transTouches wfId sid)), { s with
        opIdx := s.opIdx + 1,
        trace := s.trace ++ [OpEvent.listTransitionsOp] }) := by
  simp [listTransTouching, dbOp, hf]

theorem step_listTransTouching_fault (wfId sid : Nat) (e : DbError) (s : DbState)
    (hf : s.faults s.opIdx = some e) :
    listTransTouching wfId sid s =
      (Except.error e, { s with
        opIdx := s.opIdx + 1,
        trace := s.trace ++ [OpEvent.listTransitionsOp] }) := by
  simp [listTransTouching, dbOp, hf]

theorem cascadeTransitions_total (ts : List WorkflowTransition) :
    ∀ s : DbState, (cascadeTransitionsDelete ts s).1 = Except.ok () ∧
      ((cascadeTransitionsDelete ts s).2).trace =
        s.trace ++ ts.map (fun u => OpEvent.deleteTransitionOp u.id) := by
  induction ts with
  | nil =>
    intro s
    exact ⟨rfl, by simp [cascadeTransitionsDelete, DbM.pure]⟩
  | cons t rest ih =>
    intro s
    unfold cascadeTransitionsDelete
    rw [run_bind]
    rcases h : dbTry (deleteTransitionDoc t.id) (fun _ => DbM.pure ()) s with ⟨r, s1⟩
    have hr : r = Except.ok () := by
      have := dbTry_catchAll_fst (deleteTransitionDoc t.id) s
      rw [h] at this
      exact this
    subst hr
    simp only []
    have htr : s1.trace = s.trace ++ [OpEvent.deleteTransitionOp t.id] := by
      have := trace_deleteTransition_try t.id s
      rw [h] at this
      exact this
    obtain ⟨ih1, ih2⟩ := ih s1
    refine ⟨ih1, ?_⟩
    rw [ih2, htr]
    simp

theorem cascadeStatuses_progress (wfId : Nat) (ms : List WorkflowStatus) :
    ∀ s : DbState, ∃ tr',
      ((cascadeStatusesDelete wfId ms s).2).trace = s.trace ++ tr' ∧
      (((cascadeStatusesDelete wfId ms s).1 = Except.ok () ∧
        ∀ m ∈ ms, OpEvent.deleteStatusOp m.id ∈ tr') ∨
       (∃ e tr0, (cascadeStatusesDelete wfId ms s).1 = Except.error e ∧
        tr' = tr0 ++ [OpEvent.listTransitionsOp])) := by
  induction ms with
  | nil =>
    intro s
    refine ⟨[], by simp [cascadeStatusesDelete, DbM.pure], Or.inl ⟨rfl, by simp⟩⟩
  | cons m rest ih =>
    intro s
    unfold cascadeStatusesDelete
    rw [run_bind]
    cases hflt : s.faults s.opIdx with
    | some e =>
      rw [step_listTransTouching_fault wfId m.id e s hflt]
      simp only []
      exact ⟨[OpEvent.listTransitionsOp], by simp, Or.inr ⟨e, [], rfl, by simp⟩⟩
    | none =>
      rw [step_listTransTouching_slot wfId m.id s hflt]
      simp only []
      rw [run_bind]
      have h5 := cascadeTransitions_total
        (s.store.transitions.filter (transTouches wfId m.id))
        { s with opIdx := s.opIdx + 1, trace := s.trace ++ [OpEvent.listTransitionsOp] }
      rcases h2 : cascadeTransitionsDelete
          (s.store.transitions.filter (transTouches wfId m.id))
          { s with opIdx := s.opIdx + 1, trace := s.trace ++ [OpEvent.listTransitionsOp] }
        with ⟨r2, s2⟩
      rw [h2] at h5
      obtain ⟨hr2, hs2tr⟩ := h5
      simp only [] at hr2 hs2tr
      subst hr2
      simp only []
      rw [run_bind]
      rcases h3 : dbTry (deleteStatusDoc m.id) (fun _ => DbM.pure ()) s2 with ⟨r3, s3⟩
      have hr3 : r3 = Except.ok () := by
        have := dbTry_catchAll_fst (deleteStatusDoc m.id) s2
        rw [h3] at this
        exact this
      subst hr3
      simp only []
      have hs3tr : s3.trace = s2.trace ++ [OpEvent.deleteStatusOp m.id] := by
        have := trace_deleteStatus_try m.id s2
        rw [h3] at this
        exact this
      obtain ⟨tr2, htr4, hres⟩ := ih s3
      refine ⟨[OpEvent.listTransitionsOp] ++
        (s.store.transitions.filter (transTouches wfId m.id)).map
          (fun u => OpEvent.deleteTransitionOp u.id) ++
        [OpEvent.deleteStatusOp m.id] ++ tr2, ?_, ?_⟩
      · rw [htr4, hs3tr, hs2tr]
        simp
      · rcases hres with ⟨hok, hall⟩ | ⟨e, tr0, herr, htr0⟩
        · left
          refine ⟨hok, ?_⟩
          intro m' hm'
          rcases List.mem_cons.mp hm' with hm' | hm'
          · subst hm'
            simp
          · have := hall m' hm'
            simp only [List.mem_append]
            right
            exact this
        · right
          refine ⟨e, [OpEvent.listTransitionsOp] ++
            (s.store.transitions.filter (transTouches wfId m.id)).map
              (fun u => OpEvent.deleteTransitionOp u.id) ++
            [OpEvent.deleteStatusOp m.id] ++ tr0, herr, ?_⟩
          rw [htr0]
          simp

/-- C7: Not-found (and any other) errors of the individual per-item deletes
inside the cascade are tolerated and swallowed and the cascade continues:
the per-transition loop always succeeds and still attempts every single
transition deletion, for every fault oracle; the per-status loop can only
be aborted by a failing transition query (its trace then ends with that
query) — a failing individual status deletion never stops it, and on the
success path every matched status deletion is attempted. End to end, a
not-found injected at any operation other than the primary column delete
leaves the request successful with the column removed, whereas a not-found
of the primary column deletion itself (absent column) surfaces to the
caller. -/
theorem cascade_swallows_not_found :
    (∀ (ts : List WorkflowTransition) (s : DbState),
      (cascadeTransitionsDelete ts s).1 = Except.ok () ∧
      ((cascadeTransitionsDelete ts s).2).trace =
        s.trace ++ ts.map (fun u => OpEvent.deleteTransitionOp u.id)) ∧
    (∀ (wfId : Nat) (ms : List WorkflowStatus) (s : DbState), ∃ tr',
      ((cascadeStatusesDelete wfId ms s).2).trace = s.trace ++ tr' ∧
      (((cascadeStatusesDelete wfId ms s).1 = Except.ok () ∧
        ∀ m ∈ ms, OpEvent.deleteStatusOp m.id ∈ tr') ∨
       (∃ e tr0, (cascadeStatusesDelete wfId ms s).1 = Except.error e ∧
        tr' = tr0 ++ [OpEvent.listTransitionsOp]))) ∧
    (∀ (st : Store) (colId : Nat) (col : CustomColumn) (k : Nat),
      k ≠ 1 →
      st.columns.find? (fun c => c.id == colId) = some col →
      (runDelete colId st (faultAt k DbError.notFound)).1 = Except.ok colId ∧
      ((runDelete colId st (faultAt k DbError.notFound)).2).store.columns =
        st.columns.filter (fun c => !(c.id == colId))) ∧
    (∀ (st : Store) (colId : Nat),
      st.columns.find? (fun c => c.id == colId) = none →
      (runDelete colId st noFaults).1 = Except.error DbError.notFound) := by
  refine ⟨cascadeTransitions_total, cascadeStatuses_progress, ?_, ?_⟩
  · intro st colId col k hk hcol
    have hf1 : faultAt k DbError.notFound 1 = none := by
      unfold faultAt
      have h1k : (1 == k) = false := beq_eq_false_iff_ne.mpr (fun h => hk h.symm)
      rw [h1k]
      simp
    exact delete_ok_and_columns colId st col (faultAt k DbError.notFound) hf1 hcol
  · intro st colId hfind
    unfold runDelete deleteColumn
    rw [run_bind, run_dbTry, run_bind,
      step_getColumn_missing colId (initState st noFaults) (by simp [initState, noFaults])
        (by simpa [initState] using hfind)]
    simp only []
    rw [run_DbM_pure]
    simp only []
    rw [run_bind, step_deleteColumn_missing colId _ (by simp [initState, noFaults])
      (by simpa [initState] using hfind)]

theorem cascade_swallows_not_found_witness :
    ((5 ≠ 1 ∧ wStore.columns.find? (fun c => c.id == 50) = some wCol) ∧
      ((runDelete 50 wStore (faultAt 5 DbError.notFound)).1 = Except.ok 50 ∧
      ((runDelete 50 wStore (faultAt 5 DbError.notFound)).2).store.columns =
        wStore.columns.filter (fun c => !(c.id == 50)))) ∧
    ((wStore.columns.find? (fun c => c.id == 99) = none) ∧
      (runDelete 99 wStore noFaults).1 = Except.error DbError.notFound) :=
  ⟨⟨⟨by decide, by decide⟩,
    cascade_swallows_not_found.2.2.1 wStore 50 wCol 5 (by decide) (by decide)⟩,
   ⟨by decide,
    cascade_swallows_not_found.2.2.2 wStore 99 (by decide)⟩⟩

theorem pairOk_not_status (T0 : List WorkflowTransition) (e e2 : OpEvent)
    (h : ∀ sid, e ≠ OpEvent.deleteStatusOp sid) : pairOk T0 e e2 = true := by
  cases e with
  | deleteStatusOp sid => exact absurd rfl (h sid)
  | getColumnOp id => rfl
  | listColumnsOp => rfl
  | createColumnOp => rfl
  | updateColumnOp id => rfl
  | deleteColumnOp id => rfl
  | getProjectOp id => rfl
  | listStatusesOp => rfl
  | createStatusOp => rfl
  | listTransitionsOp => rfl
  | deleteTransitionOp id => rfl

theorem pairOk_not_trans (T0 : List WorkflowTransition) (e e2 : OpEvent)
    (h : ∀ tid, e2 ≠ OpEvent.deleteTransitionOp tid) : pairOk T0 e e2 = true := by
  cases e with
  | deleteStatusOp sid =>
    cases e2 with
    | deleteTransitionOp tid => exact absurd rfl (h tid)
    | getColumnOp id => rfl
    | listColumnsOp => rfl
    | createColumnOp => rfl
    | updateColumnOp id => rfl
    | deleteColumnOp id => rfl
    | getProjectOp id => rfl
    | listStatusesOp => rfl
    | createStatusOp => rfl
    | listTransitionsOp => rfl
    | deleteStatusOp id => rfl
  | getColumnOp id => rfl
  | listColumnsOp => rfl
  | createColumnOp => rfl
  | updateColumnOp id => rfl
  | deleteColumnOp id => rfl
  | getProjectOp id => rfl
  | listStatusesOp => rfl
  | createStatusOp => rfl
  | listTransitionsOp => rfl
  | deleteTransitionOp id => rfl

theorem transBeforeStatus_append (T0 : List WorkflowTransition)
    (tr1 tr2 : List OpEvent) :
    transBeforeStatus T0 (tr1 ++ tr2) = true ↔
      (transBeforeStatus T0 tr1 = true ∧ transBeforeStatus T0 tr2 = true ∧
        ∀ e ∈ tr1, ∀ e2 ∈ tr2, pairOk T0 e e2 = true) := by
  induction tr1 with
  | nil => simp [transBeforeStatus]
  | cons e tr1 ih =>
    simp only [List.cons_append, transBeforeStatus, Bool.and_eq_true, List.all_eq_true,
      List.append_eq, List.mem_append, ih, List.mem_cons]
    constructor
    · rintro ⟨h1, h2, h3, h4⟩
      refine ⟨⟨fun e2 he2 => h1 e2 (Or.inl he2), h2⟩, h3, ?_⟩
      rintro e' (rfl | he') e2 he2
      · exact h1 e2 (Or.inr he2)
      · exact h4 e' he' e2 he2
    · rintro ⟨⟨h1, h2⟩, h3, h4⟩
      refine ⟨?_, h2, h3, ?_⟩
      · rintro e2 (he2 | he2)
        · exact h1 e2 he2
        · exact h4 e (Or.inl rfl) e2 he2
      · rintro e' he' e2 he2
        exact h4 e' (Or.inr he') e2 he2

theorem transBeforeStatus_no_status (T0 : List WorkflowTransition)
    (tr : List OpEvent) (h : ∀ sid, OpEvent.deleteStatusOp sid ∉ tr) :
    transBeforeStatus T0 tr = true := by
  induction tr with
  | nil => rfl
  | cons e rest ih =>
    simp only [transBeforeStatus, Bool.and_eq_true, List.all_eq_true]
    refine ⟨fun e2 _ => pairOk_not_status T0 e e2 ?_, ih ?_⟩
    · intro sid he
      exact h sid (he ▸ List.mem_cons_self e rest)
    · intro sid hmem
      exact h sid (List.mem_cons_of_mem e hmem)

theorem transBeforeStatus_single (T0 : List WorkflowTransition) (e : OpEvent) :
    transBeforeStatus T0 [e] = true := by
  simp [transBeforeStatus]

theorem trace_cascadeStatusesDelete (wfId : Nat) (T0 : List WorkflowTransition)
    (hndT0 : (T0.map (fun t => t.id)).Nodup) :
    ∀ (ms : List WorkflowStatus) (s : DbState),
    s.faults = noFaults →
    s.store.transitions.Sublist T0 →
    (∀ sid, OpEvent.deleteStatusOp sid ∈ s.trace →
      ∀ t ∈ s.store.transitions, transTouches wfId sid t = false) →
    transBeforeStatus T0 s.trace = true →
    transBeforeStatus T0 (((cascadeStatusesDelete wfId ms) s).2).trace = true := by
  intro ms
  induction ms with
  | nil =>
    intro s hf hsub hclean hprev
    simpa [cascadeStatusesDelete, DbM.pure] using hprev
  | cons m rest ih =>
    intro s hf hsub hclean hprev
    have hndS : (s.store.transitions.map (fun t => t.id)).Nodup :=
      (hsub.map (fun t => t.id)).nodup hndT0
    unfold cascadeStatusesDelete
    rw [run_bind, step_listTransTouching wfId m.id s hf]
    simp only []
    rw [run_bind, run_cascadeTransitionsDelete _ _ (by simp [hf])]
    simp only []
    rw [run_bind, step_deleteStatus m.id _ (by simp [hf])]
    simp only []
    rw [filter_skip_selected s.store.transitions hndS (transTouches wfId m.id)]
    apply ih
    · simp [hf]
    · exact (List.filter_sublist _).trans hsub
    · intro sid hsid t ht
      simp only [] at hsid ht
      have ht' := List.mem_filter.mp ht
      rcases List.mem_append.mp hsid with hsid | hsid
      · rcases List.mem_append.mp hsid with hsid | hsid
        · rcases List.mem_append.mp hsid with hsid | hsid
          · exact hclean sid hsid t ht'.1
          · simp at hsid
        · rcases List.mem_map.mp hsid with ⟨u, _, hequ⟩
          exact absurd hequ (by simp)
      · have hsm : sid = m.id := by
          simp at hsid
          exact hsid
        subst hsm
        have := ht'.2
        simpa using this
    · simp only []
      apply (transBeforeStatus_append T0 _ _).mpr
      refine ⟨?_, transBeforeStatus_single T0 _, ?_⟩
      · apply (transBeforeStatus_append T0 _ _).mpr
        refine ⟨?_, ?_, ?_⟩
        · apply (transBeforeStatus_append T0 _ _).mpr
          refine ⟨hprev, transBeforeStatus_single T0 _, ?_⟩
          intro e _ e2 he2
          have : e2 = OpEvent.listTransitionsOp := by simpa using he2
          subst this
          exact pairOk_not_trans T0 e _ (by intro tid h; exact absurd h (by simp))
        · apply transBeforeStatus_no_status
          intro sid hmem
          rcases List.mem_map.mp hmem with ⟨u, _, hequ⟩
          exact absurd hequ (by simp)
        · intro e he e2 he2
          rcases List.mem_map.mp he2 with ⟨u, hu, hequ⟩
          subst hequ
          have hu1 := List.mem_filter.mp hu
          cases e with
          | deleteStatusOp sid =>
            have hes : OpEvent.deleteStatusOp sid ∈ s.trace := by
              rcases List.mem_append.mp he with he | he
              · exact he
              · simp at he
            have htouch := hclean sid hes u hu1.1
            have hwfpart : (u.workflowId == wfId) = true := by
              have := hu1.2
              unfold transTouches at this
              exact ((Bool.and_eq_true _ _).mp this).1
            have hinc : (u.fromStatusId == sid || u.toStatusId == sid) = false := by
              unfold transTouches at htouch
              rw [hwfpart] at htouch
              simpa using htouch
            show pairOk T0 (OpEvent.deleteStatusOp sid) (OpEvent.deleteTransitionOp u.id) = true
            unfold pairOk
            rw [List.all_eq_true]
            intro t ht0
            by_cases hid : (t.id == u.id) = true
            · have htu : t = u :=
                List.inj_on_of_nodup_map hndT0 ht0 (hsub.subset hu1.1) (beq_iff_eq.mp hid)
              subst htu
              unfold transIncidentTo
              rw [hinc]
              simp
            · have : (t.id == u.id) = false := by
                cases h : t.id == u.id
                · rfl
                · exact absurd h hid
              rw [this]
              simp
          | getColumnOp id => rfl
          | listColumnsOp => rfl
          | createColumnOp => rfl
          | updateColumnOp id => rfl
          | deleteColumnOp id => rfl
          | getProjectOp id => rfl
          | listStatusesOp => rfl
          | createStatusOp => rfl
          | listTransitionsOp => rfl
          | deleteTransitionOp id => rfl
      · intro e _ e2 he2
        have : e2 = OpEvent.deleteStatusOp m.id := by simpa using he2
        subst this
        exact pairOk_not_trans T0 e _ (by intro tid h; exact absurd h (by simp))

theorem trace_cleanupWorkflowStatus (name : JStr) (pid : Nat) (proj : Project) (wfId : Nat)
    (T0 : List WorkflowTransition) (hndT0 : (T0.map (fun t => t.id)).Nodup)
    (s : DbState) (hf : s.faults = noFaults)
    (hproj : s.store.projects.find? (fun p => p.id == pid) = some proj)
    (hwf : proj.workflowId = some wfId)
    (hsub : s.store.transitions.Sublist T0)
    (hclean : ∀ sid, OpEvent.deleteStatusOp sid ∈ s.trace →
      ∀ t ∈ s.store.transitions, transTouches wfId sid t = false)
    (hprev : transBeforeStatus T0 s.trace = true) :
    transBeforeStatus T0 (((cleanupWorkflowStatus name pid) s).2).trace = true := by
  unfold cleanupWorkflowStatus
  rw [run_bind, step_getProject pid proj s hf hproj]
  simp only []
  rw [hwf]
  simp only []
  rw [run_bind, step_listStatusesMatching wfId name (normalizedKey name) _ (by simp [hf])]
  simp only []
  apply trace_cascadeStatusesDelete wfId T0 hndT0
  · simp [hf]
  · simpa using hsub
  · intro sid hsid t ht
    simp only [] at hsid ht
    rcases List.mem_append.mp hsid with hsid | hsid
    · rcases List.mem_append.mp hsid with hsid | hsid
      · exact hclean sid hsid t ht
      · simp at hsid
    · simp at hsid
  · simp only []
    apply (transBeforeStatus_append T0 _ _).mpr
    refine ⟨?_, transBeforeStatus_single T0 _, ?_⟩
    · apply (transBeforeStatus_append T0 _ _).mpr
      refine ⟨hprev, transBeforeStatus_single T0 _, ?_⟩
      intro e _ e2 he2
      have : e2 = OpEvent.getProjectOp pid := by simpa using he2
      subst this
      exact pairOk_not_trans T0 e _ (by intro tid h; exact absurd h (by simp))
    · intro e _ e2 he2
      have : e2 = OpEvent.listStatusesOp := by simpa using he2
      subst this
      exact pairOk_not_trans T0 e _ (by intro tid h; exact absurd h (by simp))

/-- C5: In the deletion cascade's store-operation sequence, every transition
incident to a matched status is deleted strictly before that status is
deleted: at no point in the trace does a status deletion precede the
deletion of one of its incident transitions. -/
theorem cascade_orders_transition_deletes_first (colId : Nat) (st : Store)
    (col : CustomColumn) (pid : Nat) (proj : Project) (wfId : Nat)
    (hcol : st.columns.find? (fun c => c.id == colId) = some col)
    (hname : col.name ≠ [])
    (hpid : col.projectId = some pid)
    (hproj : st.projects.find? (fun p => p.id == pid) = some proj)
    (hwf : proj.workflowId = some wfId)
    (hndT : (st.transitions.map (fun t => t.id)).Nodup) :
    transBeforeStatus st.transitions (((runDelete colId st noFaults)).2).trace = true := by
  unfold runDelete deleteColumn
  rw [run_bind, run_dbTry, run_bind, step_getColumn colId col (initState st noFaults) rfl
    (by simpa [initState] using hcol)]
  simp only []
  rw [run_pure]
  simp only []
  rw [run_bind, step_deleteColumn colId col _ rfl (by simpa [initState] using hcol)]
  simp only []
  rw [hpid]
  simp only []
  have hempty : col.name.isEmpty = false := by
    cases hn : col.name with
    | nil => exact absurd hn hname
    | cons a as => rfl
  rw [hempty]
  simp only [Bool.false_eq_true, if_false]
  obtain ⟨s', hrun, _, _, _, _, _, _⟩ :=
    run_cleanupWorkflowStatus col.name pid proj wfId
      ({ initState st noFaults with
        store := { st with
          columns := st.columns.filter (fun c => !(c.id == colId)) },
        opIdx := 0 + 1 + 1,
        trace := [] ++ [OpEvent.getColumnOp colId] ++ [OpEvent.deleteColumnOp colId] })
      (by simp [initState]) (by simpa [initState] using hproj) hwf
      (by simpa [initState] using hndT)
  have htr := trace_cleanupWorkflowStatus col.name pid proj wfId st.transitions hndT
      ({ initState st noFaults with
        store := { st with
          columns := st.columns.filter (fun c => !(c.id == colId)) },
        opIdx := 0 + 1 + 1,
        trace := [] ++ [OpEvent.getColumnOp colId] ++ [OpEvent.deleteColumnOp colId] })
      (by simp [initState]) (by simpa [initState] using hproj) hwf
      (by simp [initState])
      (by
        intro sid hsid t ht
        simp [initState] at hsid)
      (by simp [initState, transBeforeStatus, pairOk])
  rw [run_bind, run_dbTry]
  simp only [initState] at hrun htr ⊢
  rw [hrun]
  simp only []
  rw [run_pure]
  rw [hrun] at htr
  exact htr

theorem cascade_orders_transition_deletes_first_witness :
    (wStore.columns.find? (fun c => c.id == 50) = some wCol ∧
      wCol.name ≠ [] ∧
      wCol.projectId = some 1 ∧
      wStore.projects.find? (fun p => p.id == 1) = some wProject ∧
      wProject.workflowId = some 7 ∧
      (wStore.transitions.map (fun t => t.id)).Nodup) ∧
    transBeforeStatus wStore.transitions (((runDelete 50 wStore noFaults)).2).trace = true :=
  ⟨⟨by decide, by decide, by decide, by decide, by decide, by decide⟩,
    cascade_orders_transition_deletes_first 50 wStore wCol 1 wProject 7
      (by decide) (by decide) (by decide) (by decide) (by decide) (by decide)⟩
